import Mathlib

/-!
Shallow embedding of the docusign-navigator-mcp OAuth proxy and tool layer.

The embedding translates the TypeScript route handlers and library helpers
into executable Lean definitions:

* JavaScript strings are modelled as Lean `String` (sequences of Unicode
  scalar values); `.length`, `.substring` and friends are modelled on the
  scalar sequence, which agrees with UTF-16 code-unit semantics on the
  inputs considered here.
* JavaScript truthiness of optional string fields (`x || y`, `if (x)`)
  is modelled explicitly: a field is truthy when it is present and not the
  empty string.
* `fetch` round-trips are modelled by passing the upstream response
  (status and decoded JSON body) as an explicit argument to the route
  function.
-/

/-! ## JavaScript string helpers -/

/-- JS truthiness for an optional string (`undefined` and `""` are falsy). -/
def isTruthyStr : Option String → Bool
  | none => false
  | some s => s ≠ ""

/-- Model of the JS idiom `x || d` for an optional string `x`:
the default is used when the value is absent or empty. -/
def orDefaultStr (x : Option String) (d : String) : String :=
  match x with
  | none => d
  | some s => if s = "" then d else s

/-- ASCII lower-casing of one character, as performed by `Char.toLower`;
this models `String.prototype.toLowerCase` on the ASCII texts the
search handler deals with. -/
def strToLower (s : String) : String :=
  String.mk (s.data.map Char.toLower)

/-- Model of `hay.includes(needle)`: contiguous substring test. -/
def strIncludes (hay needle : String) : Bool :=
  decide (needle.data <:+: hay.data)

/-- Structural split on one separator character, with the accumulated
current piece held in reverse. Splitting the empty string yields `[""]`,
and each separator occurrence ends a piece, so consecutive, leading or
trailing separators produce empty pieces — the semantics of
`String.prototype.split` with a one-character separator. -/
def splitOnCharAux (sep : Char) : List Char → List Char → List String
  | [], acc => [String.mk acc.reverse]
  | c :: cs, acc =>
      if c = sep then String.mk acc.reverse :: splitOnCharAux sep cs []
      else splitOnCharAux sep cs (c :: acc)

/-- Model of `s.split(sep)` for a one-character separator. -/
def jsSplitOn (sep : Char) (s : String) : List String :=
  splitOnCharAux sep s.data []

/-! ## Agreement data model (src/lib/mcp/types.ts)

`Agreement` and `AgreementParty` carry exactly the fields the search and
formatting code reads; optional upstream fields are `Option`s. -/

structure AgreementParty where
  preferred_name : Option String
  name_in_agreement : Option String
  deriving Repr, DecidableEq

structure AgreementProvisions where
  effective_date : Option String
  expiration_date : Option String
  total_agreement_value : Option String
  deriving Repr, DecidableEq

structure Agreement where
  id : String
  title : Option String
  type : Option String
  category : Option String
  status : Option String
  file_name : Option String
  summary : Option String
  parties : List AgreementParty
  deriving Repr, DecidableEq

/-! ## Search handler (src/lib/mcp/handlers/search.ts) -/

/-- The searchable text of one agreement: the handler joins
title, summary, type, category, file_name and the party names with
single spaces and lower-cases the result. -/
def searchableText (a : Agreement) : String :=
  strToLower (String.intercalate " "
    ([a.title.getD "", a.summary.getD "", a.type.getD "", a.category.getD "",
      a.file_name.getD ""] ++
     a.parties.map (fun p =>
       (p.preferred_name.getD "") ++ " " ++ (p.name_in_agreement.getD ""))))

/-- The whitespace-split terms of the lower-cased query:
`query.toLowerCase().split(' ')`. -/
def searchTermsOf (query : String) : List String :=
  jsSplitOn (Char.ofNat 32) (strToLower query)

/-- The filter step of the search handler: keep an agreement when ANY
term of the lower-cased query occurs in its searchable text. -/
def searchFilterAgreements (query : String) (agreements : List Agreement) :
    List Agreement :=
  agreements.filter (fun a =>
    (searchTermsOf query).any (fun term => strIncludes (searchableText a) term))

/-! ## ChatGPT formatter (src/lib/chatgpt-formatter.ts) -/

structure ChatGPTSearchResult where
  id : String
  title : String
  text : String
  url : String
  deriving Repr, DecidableEq

/-- The snippet computed by `createSearchResponse`: the summary when it is
truthy (truncated to 200 characters plus an ellipsis when longer than
200), otherwise a type/category fallback. -/
def snippetOf (a : Agreement) : String :=
  match a.summary with
  | some s =>
      if s ≠ "" then
        if s.length > 200 then String.mk (s.data.take 200) ++ "..." else s
      else (orDefaultStr a.type "Agreement") ++ " - " ++
        (orDefaultStr a.category "Unknown category")
  | none => (orDefaultStr a.type "Agreement") ++ " - " ++
      (orDefaultStr a.category "Unknown category")

/-- The per-agreement search result object built by `createSearchResponse`. -/
def searchResultOf (a : Agreement) : ChatGPTSearchResult :=
  { id := a.id
    title := orDefaultStr a.title (orDefaultStr a.file_name "Untitled Agreement")
    text := snippetOf a
    url := "https://navigator.docusign.com/agreement/" ++ a.id }

/-- `createSearchResponse`: map every agreement of the (already filtered)
list to its connector result object. -/
def createSearchResponse (agreements : List Agreement) : List ChatGPTSearchResult :=
  agreements.map searchResultOf

/-! ## JSON values

A shallow model of the JSON values flowing through the token relay and the
state codec. Numbers are modelled as integers: every number produced by
the system is an integral `Date.now()` timestamp. A JS object is an
association list without duplicate keys (later assignments replace the
value in place, as in JS). -/

inductive Json where
  | null : Json
  | bool (b : Bool) : Json
  | num (n : Int) : Json
  | str (s : String) : Json
  | arr (elems : List Json) : Json
  | obj (fields : List (String × Json)) : Json
  deriving Repr

/-- The fields of a JSON object body; the token relay reads and writes the
upstream payload through this shape. -/
abbrev JsonObj := List (String × Json)

/-- JS truthiness of a JSON value (`null`, `false`, `0` and `""` are
falsy; arrays and objects are truthy). -/
def jsTruthy : Json → Bool
  | .null => false
  | .bool b => b
  | .num n => n ≠ 0
  | .str s => s ≠ ""
  | .arr _ => true
  | .obj _ => true

/-- Property read `o.k` on a JS object: `none` models `undefined`. -/
def objGet (o : JsonObj) (k : String) : Option Json :=
  (o.find? (fun p => p.1 = k)).map (fun p => p.2)

/-- Property write `o.k = v` on a JS object: replaces the value in place
when the key exists, appends otherwise. -/
def objSet (o : JsonObj) (k : String) (v : Json) : JsonObj :=
  if o.any (fun p => p.1 = k) then
    o.map (fun p => if p.1 = k then (k, v) else p)
  else o ++ [(k, v)]

/-! ## Token exchange relay (api/token.ts, two variants, and
src/lib/oauth-response-utils.ts) -/

/-- The canonical scope string from `oauthConfig.oauth_integration.scopes
.default_scope` (src/lib/oauth-config.ts). -/
def default_scope : String :=
  "signature impersonation adm_store_unified_repo_read models_read"

/-- The scope-list configuration: required plus optional scopes. -/
def supportedScopes : List String :=
  ["signature", "impersonation", "adm_store_unified_repo_read", "models_read"]

/-- The scope normalization applied by both token-route variants:
`if (data.access_token) { data.scope = default_scope }`. -/
def normalizeTokenScope (data : JsonObj) : JsonObj :=
  if jsTruthy ((objGet data "access_token").getD .null) then
    objSet data "scope" (.str default_scope)
  else data

/-- An HTTP response of the token route: status plus JSON body. -/
structure TokenRouteResponse where
  status : Nat
  body : JsonObj
  deriving Repr

/-- The error body `{error, error_description}` used by both variants. -/
def tokenErrorBody (error description : String) : JsonObj :=
  [("error", .str error), ("error_description", .str description)]

/-- `createTokenResponse` (src/lib/oauth-response-utils.ts): serializes the
token data with a hard-coded HTTP status 200. -/
def createTokenResponse (tokenData : JsonObj) : TokenRouteResponse :=
  { status := 200, body := tokenData }

/-- `processTokenResponse` of the refactored token route: normalize the
scope, then wrap through `createTokenResponse` (status 200 regardless of
the upstream status). -/
def processTokenResponse (data : JsonObj) : TokenRouteResponse :=
  createTokenResponse (normalizeTokenScope data)

/-- The original `POST /token` route (first api/token.ts variant), given
the parsed grant type and the upstream token endpoint's response: on a
supported grant it republishes the normalized body with the upstream
status; otherwise 400 unsupported_grant_type. -/
def tokenPOSTOriginal (grantType : Option String)
    (upstreamStatus : Nat) (upstreamBody : JsonObj) : TokenRouteResponse :=
  if grantType = some "authorization_code" ∨ grantType = some "refresh_token" then
    { status := upstreamStatus, body := normalizeTokenScope upstreamBody }
  else
    { status := 400,
      body := tokenErrorBody "unsupported_grant_type"
        "Only authorization_code and refresh_token grant types are supported" }

/-- The refactored `POST /token` route (second api/token.ts variant): on a
supported grant it returns `processTokenResponse` of the upstream body —
note the upstream status is not consulted. -/
def tokenPOSTRefactored (grantType : Option String)
    (_upstreamStatus : Nat) (upstreamBody : JsonObj) : TokenRouteResponse :=
  match grantType with
  | some g =>
      if g = "authorization_code" ∨ g = "refresh_token" then
        processTokenResponse upstreamBody
      else
        { status := 400,
          body := tokenErrorBody "unsupported_grant_type"
            "Only authorization_code and refresh_token grant types are supported" }
  | none =>
      { status := 400,
        body := tokenErrorBody "unsupported_grant_type"
          "Only authorization_code and refresh_token grant types are supported" }

/-! ## Byte-level primitives for the state codec

`btoa`, `atob`, `encodeURIComponent` and `decodeURIComponent` are
modelled on sequences of bytes (naturals below 256) exactly as the web
platform defines them. -/

/-- UTF-8 encoding of one Unicode scalar value. -/
def utf8EncodeChar (c : Char) : List Nat :=
  let n := c.toNat
  if n < 0x80 then [n]
  else if n < 0x800 then [0xC0 + n / 64, 0x80 + n % 64]
  else if n < 0x10000 then [0xE0 + n / 4096, 0x80 + n / 64 % 64, 0x80 + n % 64]
  else [0xF0 + n / 262144, 0x80 + n / 4096 % 64, 0x80 + n / 64 % 64, 0x80 + n % 64]

/-- UTF-8 encoding of a string. -/
def utf8Encode (s : String) : List Nat :=
  (s.data.map utf8EncodeChar).flatten

/-- One step of strict UTF-8 decoding: reads one scalar's bytes off the
front, rejecting truncated sequences, stray continuation bytes, overlong
forms, surrogate code points and values beyond U+10FFFF. -/
def utf8DecodeStep (b : Nat) (bs : List Nat) : Option (Char × List Nat) :=
  if b < 0x80 then some (Char.ofNat b, bs)
  else if 0xC2 ≤ b ∧ b < 0xE0 then
    match bs with
    | b2 :: bs2 =>
      if 0x80 ≤ b2 ∧ b2 < 0xC0 then
        some (Char.ofNat ((b - 0xC0) * 64 + (b2 - 0x80)), bs2)
      else none
    | [] => none
  else if 0xE0 ≤ b ∧ b < 0xF0 then
    match bs with
    | b2 :: b3 :: bs3 =>
      if 0x80 ≤ b2 ∧ b2 < 0xC0 ∧ 0x80 ≤ b3 ∧ b3 < 0xC0 ∧
          0x800 ≤ (b - 0xE0) * 4096 + (b2 - 0x80) * 64 + (b3 - 0x80) ∧
          ((b - 0xE0) * 4096 + (b2 - 0x80) * 64 + (b3 - 0x80) < 0xD800 ∨
           0xDFFF < (b - 0xE0) * 4096 + (b2 - 0x80) * 64 + (b3 - 0x80)) then
        some (Char.ofNat ((b - 0xE0) * 4096 + (b2 - 0x80) * 64 + (b3 - 0x80)), bs3)
      else none
    | _ => none
  else if 0xF0 ≤ b ∧ b < 0xF5 then
    match bs with
    | b2 :: b3 :: b4 :: bs4 =>
      if 0x80 ≤ b2 ∧ b2 < 0xC0 ∧ 0x80 ≤ b3 ∧ b3 < 0xC0 ∧ 0x80 ≤ b4 ∧ b4 < 0xC0 ∧
          0x10000 ≤ (b - 0xF0) * 262144 + (b2 - 0x80) * 4096 + (b3 - 0x80) * 64 + (b4 - 0x80) ∧
          (b - 0xF0) * 262144 + (b2 - 0x80) * 4096 + (b3 - 0x80) * 64 + (b4 - 0x80) < 0x110000 then
        some (Char.ofNat ((b - 0xF0) * 262144 + (b2 - 0x80) * 4096 + (b3 - 0x80) * 64 + (b4 - 0x80)), bs4)
      else none
    | _ => none
  else none

theorem utf8DecodeStep_length {b : Nat} {bs : List Nat} {c : Char} {rest : List Nat}
    (h : utf8DecodeStep b bs = some (c, rest)) : rest.length ≤ bs.length := by
  unfold utf8DecodeStep at h
  repeat' split at h
  all_goals simp_all
  all_goals omega

/-- Strict UTF-8 decoding of a byte sequence. -/
def utf8Decode : List Nat → Option (List Char)
  | [] => some []
  | b :: bs =>
    match h : utf8DecodeStep b bs with
    | some (c, rest) => (utf8Decode rest).map (fun cs => c :: cs)
    | none => none
termination_by l => l.length
decreasing_by
  have := utf8DecodeStep_length h
  simp only [List.length_cons]
  omega

theorem char_toNat_valid (c : Char) :
    c.toNat < 0xD800 ∨ (0xDFFF < c.toNat ∧ c.toNat < 0x110000) := by
  rcases c.valid with h | h
  · left; exact h
  · right; exact h

theorem charToNat_ofNat (n : Nat) (h : Nat.isValidChar n) :
    (Char.ofNat n).toNat = n := by
  simp only [Char.ofNat, h, dif_pos, Char.toNat, Char.ofNatAux]
  rfl

/-- One decode step inverts the single-scalar encoding. -/
theorem utf8DecodeStep_encodeChar (c : Char) (rest : List Nat) :
    ∃ b bs, utf8EncodeChar c ++ rest = b :: bs ∧
      utf8DecodeStep b bs = some (c, rest) := by
  have hv := char_toNat_valid c
  have hofNat := Char.ofNat_toNat c
  by_cases h1 : c.toNat < 0x80
  · refine ⟨c.toNat, rest, by simp [utf8EncodeChar, h1], ?_⟩
    simp [utf8DecodeStep, h1, hofNat]
  · by_cases h2 : c.toNat < 0x800
    · refine ⟨0xC0 + c.toNat / 64, (0x80 + c.toNat % 64) :: rest,
        by simp [utf8EncodeChar, h1, h2], ?_⟩
      have hb : ¬(0xC0 + c.toNat / 64 < 0x80) := by omega
      have hr : 0xC2 ≤ 0xC0 + c.toNat / 64 ∧ 0xC0 + c.toNat / 64 < 0xE0 := by omega
      have hc : 0x80 ≤ 0x80 + c.toNat % 64 ∧ 0x80 + c.toNat % 64 < 0xC0 := by omega
      have hval : (0xC0 + c.toNat / 64 - 0xC0) * 64 + (0x80 + c.toNat % 64 - 0x80) = c.toNat := by
        omega
      simp [utf8DecodeStep, hb, hr, hc, hval, hofNat]
      have hval2 : c.toNat / 64 * 64 + c.toNat % 64 = c.toNat := by omega
      rw [hval2, hofNat]
    · by_cases h3 : c.toNat < 0x10000
      · refine ⟨0xE0 + c.toNat / 4096,
          (0x80 + c.toNat / 64 % 64) :: (0x80 + c.toNat % 64) :: rest,
          by simp [utf8EncodeChar, h1, h2, h3], ?_⟩
        have hb : ¬(0xE0 + c.toNat / 4096 < 0x80) := by omega
        have hr2 : ¬(0xC2 ≤ 0xE0 + c.toNat / 4096 ∧ 0xE0 + c.toNat / 4096 < 0xE0) := by omega
        have hr3 : 0xE0 ≤ 0xE0 + c.toNat / 4096 ∧ 0xE0 + c.toNat / 4096 < 0xF0 := by omega
        have hval : (0xE0 + c.toNat / 4096 - 0xE0) * 4096 +
            (0x80 + c.toNat / 64 % 64 - 0x80) * 64 + (0x80 + c.toNat % 64 - 0x80) = c.toNat := by
          omega
        have hcond : 0x80 ≤ 0x80 + c.toNat / 64 % 64 ∧ 0x80 + c.toNat / 64 % 64 < 0xC0 ∧
            0x80 ≤ 0x80 + c.toNat % 64 ∧ 0x80 + c.toNat % 64 < 0xC0 ∧
            0x800 ≤ (0xE0 + c.toNat / 4096 - 0xE0) * 4096 +
              (0x80 + c.toNat / 64 % 64 - 0x80) * 64 + (0x80 + c.toNat % 64 - 0x80) ∧
            ((0xE0 + c.toNat / 4096 - 0xE0) * 4096 +
              (0x80 + c.toNat / 64 % 64 - 0x80) * 64 + (0x80 + c.toNat % 64 - 0x80) < 0xD800 ∨
             0xDFFF < (0xE0 + c.toNat / 4096 - 0xE0) * 4096 +
              (0x80 + c.toNat / 64 % 64 - 0x80) * 64 + (0x80 + c.toNat % 64 - 0x80)) := by
          omega
        have hA : 0x800 ≤ c.toNat := by omega
        have hB : c.toNat < 0xD800 ∨ 0xDFFF < c.toNat := by omega
        simp [utf8DecodeStep, hb, hr2, hr3, hcond.1, hcond.2.1, hcond.2.2.1,
          hcond.2.2.2.1, hval, hA, hB, hofNat]
        have hval2 : c.toNat / 4096 * 4096 + c.toNat / 64 % 64 * 64 + c.toNat % 64 = c.toNat := by
          omega
        rw [hval2]
        exact ⟨⟨hA, hB⟩, hofNat⟩
      · have h4 : c.toNat < 0x110000 := by omega
        refine ⟨0xF0 + c.toNat / 262144,
          (0x80 + c.toNat / 4096 % 64) :: (0x80 + c.toNat / 64 % 64) ::
            (0x80 + c.toNat % 64) :: rest,
          by simp [utf8EncodeChar, h1, h2, h3], ?_⟩
        have hb : ¬(0xF0 + c.toNat / 262144 < 0x80) := by omega
        have hr2 : ¬(0xC2 ≤ 0xF0 + c.toNat / 262144 ∧ 0xF0 + c.toNat / 262144 < 0xE0) := by omega
        have hr3 : ¬(0xE0 ≤ 0xF0 + c.toNat / 262144 ∧ 0xF0 + c.toNat / 262144 < 0xF0) := by omega
        have hr4 : 0xF0 ≤ 0xF0 + c.toNat / 262144 ∧ 0xF0 + c.toNat / 262144 < 0xF5 := by omega
        have hval : (0xF0 + c.toNat / 262144 - 0xF0) * 262144 +
            (0x80 + c.toNat / 4096 % 64 - 0x80) * 4096 +
            (0x80 + c.toNat / 64 % 64 - 0x80) * 64 + (0x80 + c.toNat % 64 - 0x80) = c.toNat := by
          omega
        have hcond : 0x80 ≤ 0x80 + c.toNat / 4096 % 64 ∧ 0x80 + c.toNat / 4096 % 64 < 0xC0 ∧
            0x80 ≤ 0x80 + c.toNat / 64 % 64 ∧ 0x80 + c.toNat / 64 % 64 < 0xC0 ∧
            0x80 ≤ 0x80 + c.toNat % 64 ∧ 0x80 + c.toNat % 64 < 0xC0 ∧
            0x10000 ≤ (0xF0 + c.toNat / 262144 - 0xF0) * 262144 +
              (0x80 + c.toNat / 4096 % 64 - 0x80) * 4096 +
              (0x80 + c.toNat / 64 % 64 - 0x80) * 64 + (0x80 + c.toNat % 64 - 0x80) ∧
            (0xF0 + c.toNat / 262144 - 0xF0) * 262144 +
              (0x80 + c.toNat / 4096 % 64 - 0x80) * 4096 +
              (0x80 + c.toNat / 64 % 64 - 0x80) * 64 + (0x80 + c.toNat % 64 - 0x80) < 0x110000 := by
          omega
        have hA : 0x10000 ≤ c.toNat := by omega
        simp [utf8DecodeStep, hb, hr2, hr3, hr4, hcond.1, hcond.2.1, hcond.2.2.1,
          hcond.2.2.2.1, hcond.2.2.2.2.1, hcond.2.2.2.2.2.1, hval, hA, h4, hofNat]
        have hval2 : c.toNat / 262144 * 262144 + c.toNat / 4096 % 64 * 4096 +
            c.toNat / 64 % 64 * 64 + c.toNat % 64 = c.toNat := by omega
        rw [hval2]
        exact ⟨⟨hA, h4⟩, hofNat⟩

/-- Decoding inverts encoding, one scalar at a time. -/
theorem utf8Decode_encodeChar (c : Char) (rest : List Nat) :
    utf8Decode (utf8EncodeChar c ++ rest) =
      (utf8Decode rest).map (fun cs => c :: cs) := by
  obtain ⟨b, bs, heq, hstep⟩ := utf8DecodeStep_encodeChar c rest
  rw [heq, utf8Decode, hstep]

/-- Decoding inverts encoding on whole strings. -/
theorem utf8Decode_encode (s : String) : utf8Decode (utf8Encode s) = some s.data := by
  show utf8Decode ((s.data.map utf8EncodeChar).flatten) = some s.data
  induction s.data with
  | nil => simp [utf8Decode]
  | cons c cs ih =>
      simp only [List.map_cons, List.flatten_cons]
      rw [utf8Decode_encodeChar, ih]
      rfl

/-! ## Percent encoding (encodeURIComponent / decodeURIComponent) -/

/-- Numeric code of an upper-case hex digit, as emitted by
`encodeURIComponent`. -/
def hexCodeUpper (d : Nat) : Nat := if d < 10 then 48 + d else 55 + d

/-- Value of a hex-digit byte; both cases are accepted on decoding. -/
def hexDigitVal (b : Nat) : Option Nat :=
  if 48 ≤ b ∧ b ≤ 57 then some (b - 48)
  else if 65 ≤ b ∧ b ≤ 70 then some (b - 55)
  else if 97 ≤ b ∧ b ≤ 102 then some (b - 87)
  else none

/-- The bytes `encodeURIComponent` leaves unescaped:
`A-Z a-z 0-9 - _ . ! ~ * ' ( )`. -/
def isUnreservedByte (b : Nat) : Bool :=
  decide ((65 ≤ b ∧ b ≤ 90) ∨ (97 ≤ b ∧ b ≤ 122) ∨ (48 ≤ b ∧ b ≤ 57) ∨
    b = 45 ∨ b = 95 ∨ b = 46 ∨ b = 33 ∨ b = 126 ∨ b = 42 ∨ b = 39 ∨
    b = 40 ∨ b = 41)

/-- Percent-encoding of one UTF-8 byte, at the byte level. -/
def percentEncodeByteN (b : Nat) : List Nat :=
  if isUnreservedByte b then [b] else [37, hexCodeUpper (b / 16), hexCodeUpper (b % 16)]

/-- Percent-encoding of one UTF-8 byte, as characters. -/
def percentEncodeByte (b : Nat) : List Char :=
  (percentEncodeByteN b).map Char.ofNat

/-- `encodeURIComponent`: percent-encode every UTF-8 byte of the string
except the unreserved set. -/
def encodeURIComponent (s : String) : String :=
  String.mk (((utf8Encode s).map percentEncodeByte).flatten)

/-- One step of percent decoding: a `%` escape consumes two hex digits,
any other byte passes through; `none` models a malformed escape. -/
def percentDecodeStep (b : Nat) (bs : List Nat) : Option (Nat × List Nat) :=
  if b = 37 then
    match bs with
    | h1 :: h2 :: rest =>
      match hexDigitVal h1, hexDigitVal h2 with
      | some v1, some v2 => some (v1 * 16 + v2, rest)
      | _, _ => none
    | _ => none
  else some (b, bs)

theorem percentDecodeStep_length {b : Nat} {bs : List Nat} {v : Nat} {rest : List Nat}
    (h : percentDecodeStep b bs = some (v, rest)) : rest.length ≤ bs.length := by
  unfold percentDecodeStep at h
  repeat' split at h
  all_goals simp_all
  all_goals omega

/-- Replaces percent escapes by their byte values; `none` models the
`URIError` thrown on a malformed escape. -/
def percentDecodeBytes : List Nat → Option (List Nat)
  | [] => some []
  | b :: bs =>
    match h : percentDecodeStep b bs with
    | some (v, rest) => (percentDecodeBytes rest).map (fun ds => v :: ds)
    | none => none
termination_by l => l.length
decreasing_by
  have := percentDecodeStep_length h
  simp only [List.length_cons]
  omega

/-- `decodeURIComponent`: decode the percent escapes among the UTF-8
bytes of the string, then reinterpret the bytes as UTF-8; `none` models
the `URIError` thrown on malformed input. -/
def decodeURIComponent (s : String) : Option String :=
  (percentDecodeBytes (utf8Encode s)).bind (fun bs => (utf8Decode bs).map String.mk)

theorem stringMk_data (s : String) : String.mk s.data = s := by
  cases s
  rfl

theorem charToNat_ofByte {b : Nat} (h : b < 0xD800) : (Char.ofNat b).toNat = b :=
  charToNat_ofNat b (Or.inl h)

theorem utf8EncodeChar_ascii {c : Char} (h : c.toNat < 0x80) :
    utf8EncodeChar c = [c.toNat] := by
  simp [utf8EncodeChar, h]

/-- Every character produced by `percentEncodeByte` is ASCII, and its
codes are exactly `percentEncodeByteN`. -/
theorem percentEncodeByte_codes {b : Nat} (hb : b < 256) :
    (percentEncodeByte b).map utf8EncodeChar = (percentEncodeByteN b).map (fun n => [n]) := by
  by_cases h : isUnreservedByte b = true
  · have hlt : b < 0x80 := by
      simp only [isUnreservedByte, decide_eq_true_eq] at h
      omega
    simp only [percentEncodeByte, percentEncodeByteN, h, if_pos, List.map_cons, List.map_nil]
    rw [utf8EncodeChar_ascii (by rw [charToNat_ofByte (by omega)]; exact hlt)]
    rw [charToNat_ofByte (by omega)]
  · have hhi : hexCodeUpper (b / 16) < 0x80 := by unfold hexCodeUpper; split <;> omega
    have hlo : hexCodeUpper (b % 16) < 0x80 := by unfold hexCodeUpper; split <;> omega
    simp only [percentEncodeByte, percentEncodeByteN, h, if_neg, List.map_cons, List.map_nil,
      Bool.false_eq_true, not_false_eq_true]
    rw [utf8EncodeChar_ascii (by rw [charToNat_ofByte (by omega)]; omega),
        utf8EncodeChar_ascii (by rw [charToNat_ofByte (by omega)]; exact hhi),
        utf8EncodeChar_ascii (by rw [charToNat_ofByte (by omega)]; exact hlo)]
    rw [charToNat_ofByte (by omega), charToNat_ofByte (by omega), charToNat_ofByte (by omega)]

theorem hexDigitVal_hexCodeUpper : ∀ d < 16, hexDigitVal (hexCodeUpper d) = some d := by
  decide

theorem utf8EncodeChar_lt (c : Char) : ∀ b ∈ utf8EncodeChar c, b < 256 := by
  intro b hb
  have hv := char_toNat_valid c
  simp only [utf8EncodeChar] at hb
  split at hb
  · simp at hb; omega
  · split at hb
    · simp at hb; rcases hb with h | h <;> omega
    · split at hb
      · simp at hb; rcases hb with h | h | h <;> omega
      · simp at hb
        have : c.toNat < 0x110000 := by omega
        rcases hb with h | h | h | h <;> omega

theorem utf8Encode_lt (s : String) : ∀ b ∈ utf8Encode s, b < 256 := by
  intro b hb
  unfold utf8Encode at hb
  rw [List.mem_flatten] at hb
  obtain ⟨l, hl, hbl⟩ := hb
  rw [List.mem_map] at hl
  obtain ⟨c, _, rfl⟩ := hl
  exact utf8EncodeChar_lt c b hbl

theorem flatten_map_singleton (l : List Nat) : (l.map (fun n => [n])).flatten = l := by
  induction l with
  | nil => rfl
  | cons x xs ih => simp [ih]

theorem percentEncode_codes_flatten (l : List Nat) (h : ∀ b ∈ l, b < 256) :
    (((l.map percentEncodeByte).flatten).map utf8EncodeChar).flatten =
      (l.map percentEncodeByteN).flatten := by
  induction l with
  | nil => rfl
  | cons b bs ih =>
      simp only [List.map_cons, List.flatten_cons, List.map_append, List.flatten_append]
      rw [ih (fun x hx => h x (List.mem_cons_of_mem b hx))]
      congr 1
      rw [percentEncodeByte_codes (h b (List.mem_cons_self b bs))]
      exact flatten_map_singleton _

/-- The UTF-8 bytes of the percent-encoded string are the byte-level
percent encoding of the original bytes. -/
theorem utf8Encode_encodeURIComponent (s : String) :
    utf8Encode (encodeURIComponent s) =
      ((utf8Encode s).map percentEncodeByteN).flatten :=
  percentEncode_codes_flatten (utf8Encode s) (utf8Encode_lt s)

theorem percentDecodeStep_encodeByte (b : Nat) (hb : b < 256) (tail : List Nat) :
    ∃ x xs, percentEncodeByteN b ++ tail = x :: xs ∧
      percentDecodeStep x xs = some (b, tail) := by
  by_cases hu : isUnreservedByte b = true
  · refine ⟨b, tail, by simp [percentEncodeByteN, hu], ?_⟩
    have hb37 : b ≠ 37 := by
      intro hbe
      rw [hbe] at hu
      simp [isUnreservedByte] at hu
    simp [percentDecodeStep, hb37]
  · refine ⟨37, hexCodeUpper (b / 16) :: hexCodeUpper (b % 16) :: tail,
      by simp [percentEncodeByteN, hu], ?_⟩
    rw [percentDecodeStep, if_pos rfl]
    rw [hexDigitVal_hexCodeUpper (b / 16) (by omega),
        hexDigitVal_hexCodeUpper (b % 16) (by omega)]
    show some (b / 16 * 16 + b % 16, tail) = some (b, tail)
    have : b / 16 * 16 + b % 16 = b := by omega
    rw [this]

theorem percentDecodeBytes_encode (l : List Nat) (h : ∀ b ∈ l, b < 256) :
    percentDecodeBytes ((l.map percentEncodeByteN).flatten) = some l := by
  induction l with
  | nil => simp [percentDecodeBytes]
  | cons b bs ih =>
      have hb := h b (List.mem_cons_self b bs)
      have ihr := ih (fun x hx => h x (List.mem_cons_of_mem b hx))
      simp only [List.map_cons, List.flatten_cons]
      obtain ⟨x, xs, heq, hstep⟩ :=
        percentDecodeStep_encodeByte b hb ((List.map percentEncodeByteN bs).flatten)
      rw [heq, percentDecodeBytes, hstep]
      show Option.map (fun ds => b :: ds)
        (percentDecodeBytes ((List.map percentEncodeByteN bs).flatten)) = some (b :: bs)
      rw [ihr]
      rfl

/-- `decodeURIComponent` inverts `encodeURIComponent` on every string. -/
theorem decodeURIComponent_encodeURIComponent (s : String) :
    decodeURIComponent (encodeURIComponent s) = some s := by
  rw [decodeURIComponent, utf8Encode_encodeURIComponent,
      percentDecodeBytes_encode (utf8Encode s) (utf8Encode_lt s)]
  show (utf8Decode (utf8Encode s)).map String.mk = some s
  rw [utf8Decode_encode]
  show some (String.mk s.data) = some s
  rw [stringMk_data]

/-! ## Base64 (btoa / atob)

`btoa` maps a latin-1 string (every code point below 256) to its base64
encoding and throws `InvalidCharacterError` — modelled as `none` — on any
larger code point, per the WHATWG definition. `atob` decodes, rejecting
non-alphabet characters. -/

/-- The base64 alphabet. -/
def b64Char (n : Nat) : Char :=
  Char.ofNat (if n < 26 then 65 + n else if n < 52 then 71 + n
    else if n < 62 then n - 4 else if n = 62 then 43 else 47)

/-- The padding character `=`. -/
def b64Pad : Char := Char.ofNat 61

/-- Value of one base64 alphabet character. -/
def b64Val (c : Char) : Option Nat :=
  if 65 ≤ c.toNat ∧ c.toNat ≤ 90 then some (c.toNat - 65)
  else if 97 ≤ c.toNat ∧ c.toNat ≤ 122 then some (c.toNat - 71)
  else if 48 ≤ c.toNat ∧ c.toNat ≤ 57 then some (c.toNat + 4)
  else if c.toNat = 43 then some 62
  else if c.toNat = 47 then some 63
  else none

/-- Base64 encoding of a byte list, three bytes to four characters, with
`=` padding on a final group of one or two bytes. -/
def base64EncodeBytes : List Nat → List Char
  | [] => []
  | [a] => [b64Char (a / 4), b64Char (a % 4 * 16), b64Pad, b64Pad]
  | [a, b] => [b64Char (a / 4), b64Char (a % 4 * 16 + b / 16),
      b64Char (b % 16 * 4), b64Pad]
  | a :: b :: c :: rest =>
      b64Char (a / 4) :: b64Char (a % 4 * 16 + b / 16) ::
        b64Char (b % 16 * 4 + c / 64) :: b64Char (c % 64) ::
          base64EncodeBytes rest

/-- Base64 decoding of a character list, four characters to three bytes,
accepting `=` padding only at the very end. -/
def base64DecodeChars : List Char → Option (List Nat)
  | [] => some []
  | c1 :: c2 :: c3 :: c4 :: rest =>
    match b64Val c1, b64Val c2 with
    | some v1, some v2 =>
      if c3 = b64Pad then
        if c4 = b64Pad ∧ rest = [] then some [v1 * 4 + v2 / 16] else none
      else
        match b64Val c3 with
        | some v3 =>
          if c4 = b64Pad then
            if rest = [] then some [v1 * 4 + v2 / 16, v2 % 16 * 16 + v3 / 4]
            else none
          else
            match b64Val c4 with
            | some v4 =>
                (base64DecodeChars rest).map (fun ds =>
                  (v1 * 4 + v2 / 16) :: (v2 % 16 * 16 + v3 / 4) ::
                    (v3 % 4 * 64 + v4) :: ds)
            | none => none
        | none => none
    | _, _ => none
  | _ => none

/-- `btoa`: base64 of the latin-1 bytes; larger code points throw. -/
def btoa (s : String) : Option String :=
  if s.data.all (fun c => c.toNat < 256) then
    some (String.mk (base64EncodeBytes (s.data.map Char.toNat)))
  else none

/-- `atob`: base64 decoding back to a latin-1 string. -/
def atob (s : String) : Option String :=
  (base64DecodeChars s.data).map (fun bs => String.mk (bs.map Char.ofNat))

theorem b64Val_b64Char : ∀ n < 64, b64Val (b64Char n) = some n := by
  decide

theorem b64Char_ne_pad : ∀ n < 64, b64Char n ≠ b64Pad := by
  decide

theorem base64DecodeChars_encode (l : List Nat) (h : ∀ b ∈ l, b < 256) :
    base64DecodeChars (base64EncodeBytes l) = some l := by
  induction l using base64EncodeBytes.induct with
  | case1 => rfl
  | case2 a =>
      have ha : a < 256 := h a (by simp)
      rw [base64EncodeBytes, base64DecodeChars]
      rw [b64Val_b64Char (a / 4) (by omega), b64Val_b64Char (a % 4 * 16) (by omega)]
      simp only [if_pos rfl, and_self, if_pos]
      have : a / 4 * 4 + a % 4 * 16 / 16 = a := by omega
      rw [this]
  | case3 a b =>
      have ha : a < 256 := h a (by simp)
      have hb : b < 256 := h b (by simp)
      rw [base64EncodeBytes, base64DecodeChars]
      rw [b64Val_b64Char (a / 4) (by omega), b64Val_b64Char (a % 4 * 16 + b / 16) (by omega)]
      dsimp only
      rw [if_neg (b64Char_ne_pad (b % 16 * 4) (by omega))]
      rw [b64Val_b64Char (b % 16 * 4) (by omega)]
      simp only [if_pos rfl]
      have h1 : a / 4 * 4 + (a % 4 * 16 + b / 16) / 16 = a := by omega
      have h2 : (a % 4 * 16 + b / 16) % 16 * 16 + b % 16 * 4 / 4 = b := by omega
      rw [h1, h2]
      simp
  | case4 a b c rest ih =>
      have ha : a < 256 := h a (by simp)
      have hb : b < 256 := h b (by simp)
      have hc : c < 256 := h c (by simp)
      have ihr := ih (fun x hx => h x (by simp [hx]))
      rw [base64EncodeBytes, base64DecodeChars]
      rw [b64Val_b64Char (a / 4) (by omega), b64Val_b64Char (a % 4 * 16 + b / 16) (by omega)]
      dsimp only
      rw [if_neg (b64Char_ne_pad (b % 16 * 4 + c / 64) (by omega))]
      rw [b64Val_b64Char (b % 16 * 4 + c / 64) (by omega)]
      dsimp only
      rw [if_neg (b64Char_ne_pad (c % 64) (by omega))]
      rw [b64Val_b64Char (c % 64) (by omega)]
      dsimp only
      rw [ihr]
      have h1 : a / 4 * 4 + (a % 4 * 16 + b / 16) / 16 = a := by omega
      have h2 : (a % 4 * 16 + b / 16) % 16 * 16 + (b % 16 * 4 + c / 64) / 4 = b := by omega
      have h3 : (b % 16 * 4 + c / 64) % 4 * 64 + c % 64 = c := by omega
      rw [h1, h2, h3]
      rfl

/-- `atob` inverts `btoa` on every latin-1 string. -/
theorem atob_btoa (s : String) (h : s.data.all (fun c => c.toNat < 256) = true) :
    (btoa s).bind atob = some s := by
  rw [btoa, if_pos h]
  show atob (String.mk (base64EncodeBytes (s.data.map Char.toNat))) = some s
  rw [atob]
  show (base64DecodeChars (base64EncodeBytes (s.data.map Char.toNat))).map
    (fun bs => String.mk (bs.map Char.ofNat)) = some s
  rw [base64DecodeChars_encode (s.data.map Char.toNat) (by
    intro b hbm
    rw [List.mem_map] at hbm
    obtain ⟨c, hc, rfl⟩ := hbm
    rw [List.all_eq_true] at h
    exact Nat.lt_of_lt_of_le (by simpa using h c hc) (le_refl 256))]
  show some (String.mk ((s.data.map Char.toNat).map Char.ofNat)) = some s
  rw [List.map_map]
  have : s.data.map (Char.ofNat ∘ Char.toNat) = s.data.map id := by
    apply List.map_congr_left
    intro c _
    exact Char.ofNat_toNat c
  rw [this, List.map_id, stringMk_data]

/-! ## JSON.stringify

Serialization of the JSON model, matching `JSON.stringify`: strings are
quoted with `"` / `\` / control-character escaping, objects and arrays
are comma-separated without whitespace, numbers print in decimal. -/

/-- Numeric code of a lower-case hex digit, as used in `\u00xx` escapes. -/
def hexCodeLower (d : Nat) : Nat := if d < 10 then 48 + d else 87 + d

/-- JSON escaping of one character: `"` and `\` get a backslash escape,
the control characters BS TAB LF FF CR get their short escapes, other
control characters become `\u00xx`, and everything else passes through. -/
def jsonEscapeChar (c : Char) : List Char :=
  if c.toNat = 34 then [Char.ofNat 92, Char.ofNat 34]
  else if c.toNat = 92 then [Char.ofNat 92, Char.ofNat 92]
  else if c.toNat = 8 then [Char.ofNat 92, Char.ofNat 98]
  else if c.toNat = 9 then [Char.ofNat 92, Char.ofNat 116]
  else if c.toNat = 10 then [Char.ofNat 92, Char.ofNat 110]
  else if c.toNat = 12 then [Char.ofNat 92, Char.ofNat 102]
  else if c.toNat = 13 then [Char.ofNat 92, Char.ofNat 114]
  else if c.toNat < 32 then
    [Char.ofNat 92, Char.ofNat 117, Char.ofNat 48, Char.ofNat 48,
     Char.ofNat (hexCodeLower (c.toNat / 16)), Char.ofNat (hexCodeLower (c.toNat % 16))]
  else [c]

/-- A JSON string literal: quote, escaped body, quote. -/
def jsonQuoteChars (s : String) : List Char :=
  Char.ofNat 34 :: (s.data.map jsonEscapeChar).flatten ++ [Char.ofNat 34]

/-- Decimal digits of a natural number, most significant first
(empty for zero). -/
def natCharsCore (n : Nat) : List Char :=
  if n = 0 then [] else natCharsCore (n / 10) ++ [Char.ofNat (48 + n % 10)]
decreasing_by exact Nat.div_lt_self (Nat.pos_of_ne_zero (by assumption)) (by omega)

/-- Decimal notation of a natural number. -/
def natChars (n : Nat) : List Char :=
  if n = 0 then [Char.ofNat 48] else natCharsCore n

/-- Decimal notation of an integer. -/
def intChars (i : Int) : List Char :=
  if i < 0 then Char.ofNat 45 :: natChars i.natAbs else natChars i.toNat

mutual

/-- `JSON.stringify` of a JSON value, as a character list. -/
def stringifyJson : Json → List Char
  | .null => "null".data
  | .bool true => "true".data
  | .bool false => "false".data
  | .num n => intChars n
  | .str s => jsonQuoteChars s
  | .arr xs => Char.ofNat 91 :: stringifyArrElems xs ++ [Char.ofNat 93]
  | .obj fs => Char.ofNat 123 :: stringifyObjFields fs ++ [Char.ofNat 125]

/-- Comma-separated serialization of array elements. -/
def stringifyArrElems : List Json → List Char
  | [] => []
  | [x] => stringifyJson x
  | x :: y :: rest => stringifyJson x ++ Char.ofNat 44 :: stringifyArrElems (y :: rest)

/-- Comma-separated serialization of object members. -/
def stringifyObjFields : List (String × Json) → List Char
  | [] => []
  | [(k, v)] => jsonQuoteChars k ++ Char.ofNat 58 :: stringifyJson v
  | (k, v) :: p :: rest =>
      jsonQuoteChars k ++ Char.ofNat 58 :: stringifyJson v ++
        Char.ofNat 44 :: stringifyObjFields (p :: rest)

end

/-! ## JSON.parse

A recursive-descent parser over the character list. Numbers are parsed
as integers, and a fraction or exponent part makes the parse fail rather
than silently misread the value (the only numbers the system handles are
integral timestamps). Object members are accumulated with JS assignment
semantics (`objSet`), so duplicate keys override in place. A string
escape denoting a lone UTF-16 surrogate is rejected: such JS strings
have no counterpart in the model. -/

/-- JSON whitespace. -/
def isJsonWs (c : Char) : Bool :=
  decide (c.toNat = 32 ∨ c.toNat = 9 ∨ c.toNat = 10 ∨ c.toNat = 13)

/-- Skip insignificant whitespace. -/
def skipWs (cs : List Char) : List Char := cs.dropWhile isJsonWs

/-- Value of one decimal digit character. -/
def digitVal (c : Char) : Option Nat :=
  if 48 ≤ c.toNat ∧ c.toNat ≤ 57 then some (c.toNat - 48) else none

/-- Accumulate a run of decimal digits. -/
def parseDigitsAux (acc : Nat) : List Char → Nat × List Char
  | [] => (acc, [])
  | c :: rest =>
    match digitVal c with
    | some d => parseDigitsAux (acc * 10 + d) rest
    | none => (acc, c :: rest)

/-- Parse a non-empty digit run into a natural number. -/
def parseNat : List Char → Option (Nat × List Char)
  | [] => none
  | c :: rest =>
    match digitVal c with
    | some _ => some (parseDigitsAux 0 (c :: rest))
    | none => none

/-- After a number, a fraction or exponent marker makes the parse fail
(unsupported in the integer model) instead of being misread. -/
def numberFollowOk : List Char → Bool
  | [] => true
  | c :: _ => decide (¬(c.toNat = 46 ∨ c.toNat = 101 ∨ c.toNat = 69))

/-- Parse a JSON number (integer grammar: optional minus, digit run). -/
def parseNumber : List Char → Option (Int × List Char)
  | [] => none
  | c :: rest =>
    if c.toNat = 45 then
      match parseNat rest with
      | some (n, r) => if numberFollowOk r then some (-(n : Int), r) else none
      | none => none
    else
      match parseNat (c :: rest) with
      | some (n, r) => if numberFollowOk r then some ((n : Int), r) else none
      | none => none

/-- Combine four hex digit characters. -/
def hexQuad (a b c d : Char) : Option Nat :=
  match hexDigitVal a.toNat, hexDigitVal b.toNat, hexDigitVal c.toNat, hexDigitVal d.toNat with
  | some v1, some v2, some v3, some v4 => some (v1 * 4096 + v2 * 256 + v3 * 16 + v4)
  | _, _, _, _ => none

/-- Parse four hex digit characters off the input. -/
def parseHex4 : List Char → Option (Nat × List Char)
  | h1 :: h2 :: h3 :: h4 :: rest =>
    match hexQuad h1 h2 h3 h4 with
    | some n => some (n, rest)
    | none => none
  | _ => none

/-- After a high surrogate escape, parse the mandatory adjacent low
surrogate escape and combine the pair into one scalar. -/
def parseLowSurrogatePair (n : Nat) : List Char → Option (Char × List Char)
  | b2 :: u2 :: rest =>
    if b2.toNat = 92 ∧ u2.toNat = 117 then
      match parseHex4 rest with
      | some (m, rest4) =>
        if 0xDC00 ≤ m ∧ m ≤ 0xDFFF then
          some (Char.ofNat (0x10000 + (n - 0xD800) * 1024 + (m - 0xDC00)), rest4)
        else none
      | none => none
    else none
  | _ => none

/-- Parse one string escape after the backslash. A `\u` escape denoting
a lone UTF-16 surrogate is rejected: such JS strings have no counterpart
in the model. -/
def parseStringEscape : List Char → Option (Char × List Char)
  | [] => none
  | e :: rest2 =>
    if e.toNat = 34 ∨ e.toNat = 92 ∨ e.toNat = 47 then some (e, rest2)
    else if e.toNat = 98 then some (Char.ofNat 8, rest2)
    else if e.toNat = 116 then some (Char.ofNat 9, rest2)
    else if e.toNat = 110 then some (Char.ofNat 10, rest2)
    else if e.toNat = 102 then some (Char.ofNat 12, rest2)
    else if e.toNat = 114 then some (Char.ofNat 13, rest2)
    else if e.toNat = 117 then
      match parseHex4 rest2 with
      | some (n, rest3) =>
        if n < 0xD800 ∨ 0xDFFF < n then some (Char.ofNat n, rest3)
        else if n < 0xDC00 then parseLowSurrogatePair n rest3
        else none
      | none => none
    else none

theorem parseHex4_length {cs : List Char} {n : Nat} {rest : List Char}
    (h : parseHex4 cs = some (n, rest)) : rest.length ≤ cs.length := by
  unfold parseHex4 at h
  repeat' split at h
  all_goals simp_all
  all_goals omega

theorem parseLowSurrogatePair_length {n : Nat} {cs : List Char} {c : Char} {rest : List Char}
    (h : parseLowSurrogatePair n cs = some (c, rest)) : rest.length ≤ cs.length := by
  unfold parseLowSurrogatePair at h
  repeat' split at h
  all_goals simp_all
  all_goals rename_i heq _
  all_goals have := parseHex4_length heq
  all_goals simp_all
  all_goals omega

theorem parseStringEscape_length {cs : List Char} {c : Char} {rest : List Char}
    (h : parseStringEscape cs = some (c, rest)) : rest.length ≤ cs.length := by
  unfold parseStringEscape at h
  repeat' split at h
  all_goals simp_all
  all_goals try omega
  · rename_i heq _
    have := parseHex4_length heq
    simp_all
    omega
  · rename_i heq _
    have h4 := parseHex4_length (by assumption)
    have := parseLowSurrogatePair_length h
    simp_all
    omega

/-- Parse a JSON string body after the opening quote, returning the
decoded characters and the remainder after the closing quote. -/
def parseStringBody : List Char → Option (List Char × List Char)
  | [] => none
  | c :: rest =>
    if c.toNat = 34 then some ([], rest)
    else if c.toNat = 92 then
      match h : parseStringEscape rest with
      | some (ch, rest2) => (parseStringBody rest2).map (fun p => (ch :: p.1, p.2))
      | none => none
    else if c.toNat < 32 then none
    else (parseStringBody rest).map (fun p => (c :: p.1, p.2))
termination_by l => l.length
decreasing_by
  · have := parseStringEscape_length h
    simp only [List.length_cons]
    omega
  · simp only [List.length_cons]
    omega

/-- Consume an expected literal suffix given by character codes. -/
def expectChars : List Nat → List Char → Option (List Char)
  | [], cs => some cs
  | _ :: _, [] => none
  | n :: ns, c :: cs => if c.toNat = n then expectChars ns cs else none

mutual

/-- Parse one JSON value; the fuel bounds the recursion depth. -/
def parseValue : Nat → List Char → Option (Json × List Char)
  | 0, _ => none
  | fuel + 1, cs =>
    match skipWs cs with
    | [] => none
    | c :: rest =>
      if c.toNat = 110 then
        match expectChars [117, 108, 108] rest with
        | some r => some (.null, r)
        | none => none
      else if c.toNat = 116 then
        match expectChars [114, 117, 101] rest with
        | some r => some (.bool true, r)
        | none => none
      else if c.toNat = 102 then
        match expectChars [97, 108, 115, 101] rest with
        | some r => some (.bool false, r)
        | none => none
      else if c.toNat = 34 then
        match parseStringBody rest with
        | some p => some (.str (String.mk p.1), p.2)
        | none => none
      else if c.toNat = 45 ∨ (digitVal c).isSome then
        match parseNumber (c :: rest) with
        | some p => some (.num p.1, p.2)
        | none => none
      else if c.toNat = 91 then
        match skipWs rest with
        | [] => none
        | d :: r2 =>
          if d.toNat = 93 then some (.arr [], r2)
          else
            match parseValue fuel (d :: r2) with
            | some (v, r3) => parseArrRest fuel [v] r3
            | none => none
      else if c.toNat = 123 then
        match skipWs rest with
        | [] => none
        | d :: r2 =>
          if d.toNat = 125 then some (.obj [], r2)
          else
            match parseMemberKV fuel (d :: r2) with
            | some (kv, r5) => parseMembersRest fuel [kv] r5
            | none => none
      else none

/-- Parse one `"key": value` object member. -/
def parseMemberKV : Nat → List Char → Option ((String × Json) × List Char)
  | 0, _ => none
  | fuel + 1, cs =>
    match skipWs cs with
    | [] => none
    | d :: r2 =>
      if d.toNat = 34 then
        match parseStringBody r2 with
        | some kp =>
          match skipWs kp.2 with
          | [] => none
          | colon :: r4 =>
            if colon.toNat = 58 then
              match parseValue fuel r4 with
              | some (v, r5) => some ((String.mk kp.1, v), r5)
              | none => none
            else none
        | none => none
      else none

/-- Parse the continuation of an array after its first element. -/
def parseArrRest : Nat → List Json → List Char → Option (Json × List Char)
  | 0, _, _ => none
  | fuel + 1, acc, cs =>
    match skipWs cs with
    | [] => none
    | c :: rest =>
      if c.toNat = 93 then some (.arr acc, rest)
      else if c.toNat = 44 then
        match parseValue fuel rest with
        | some (v, r) => parseArrRest fuel (acc ++ [v]) r
        | none => none
      else none

/-- Parse the continuation of an object after its first member; the
members are assembled with JS assignment semantics. -/
def parseMembersRest : Nat → List (String × Json) → List Char → Option (Json × List Char)
  | 0, _, _ => none
  | fuel + 1, acc, cs =>
    match skipWs cs with
    | [] => none
    | c :: rest =>
      if c.toNat = 125 then
        some (.obj (acc.foldl (fun o kv => objSet o kv.1 kv.2) []), rest)
      else if c.toNat = 44 then
        match parseMemberKV fuel rest with
        | some (kv, r) => parseMembersRest fuel (acc ++ [kv]) r
        | none => none
      else none

end

/-- `JSON.parse`: parse one value and insist nothing but whitespace
follows; `none` models the thrown `SyntaxError`. -/
def jsonParse (s : String) : Option Json :=
  match parseValue (s.length + 2) s.data with
  | some (j, rest) => if skipWs rest = [] then some j else none
  | none => none

/-! ## RelayState (MCPClientInfo) and the state codec -/

/-- The `MCPClientInfo` bundle the authorization relay smuggles through
the upstream provider's `state` parameter. -/
structure MCPClientInfo where
  client_id : String
  redirect_uri : String
  original_state : Option String
  code_challenge : String
  code_challenge_method : String
  resource : Option String
  timestamp : Int
  deriving Repr, DecidableEq

/-- The JSON object `JSON.stringify` sees: fields in insertion order,
`undefined` optionals omitted. -/
def mcpClientInfoToJson (info : MCPClientInfo) : Json :=
  .obj ([("client_id", .str info.client_id), ("redirect_uri", .str info.redirect_uri)] ++
    (match info.original_state with
     | some v => [("original_state", Json.str v)]
     | none => []) ++
    [("code_challenge", .str info.code_challenge),
     ("code_challenge_method", .str info.code_challenge_method)] ++
    (match info.resource with
     | some v => [("resource", Json.str v)]
     | none => []) ++
    [("timestamp", .num info.timestamp)])

/-- Reads an optional string property: absent is fine, a present
non-string value has no typed counterpart. -/
def optStrField (fields : JsonObj) (k : String) : Option (Option String) :=
  match objGet fields k with
  | none => some none
  | some (.str v) => some (some v)
  | some _ => none

/-- The typed reading of a parsed state object; this models the TS cast
`as MCPClientInfo` through the fields the handlers then use. -/
def mcpClientInfoOfJson (j : Json) : Option MCPClientInfo :=
  match j with
  | .obj fields =>
    match objGet fields "client_id", objGet fields "redirect_uri",
        objGet fields "code_challenge", objGet fields "code_challenge_method",
        objGet fields "timestamp" with
    | some (.str ci), some (.str ru), some (.str cc), some (.str cm), some (.num ts) =>
      match optStrField fields "original_state", optStrField fields "resource" with
      | some os, some rs =>
          some { client_id := ci, redirect_uri := ru, original_state := os,
                 code_challenge := cc, code_challenge_method := cm,
                 resource := rs, timestamp := ts }
      | _, _ => none
    | _, _, _, _, _ => none
  | _ => none

/-- `encodeStateParameter`:
`encodeURIComponent(btoa(JSON.stringify(mcpClientInfo)))`; `none` models
the `InvalidCharacterError` thrown by `btoa` on non-latin-1 input. -/
def encodeStateParameter (info : MCPClientInfo) : Option String :=
  (btoa (String.mk (stringifyJson (mcpClientInfoToJson info)))).map encodeURIComponent

/-- `decodeStateParameter`:
`JSON.parse(atob(decodeURIComponent(state)))` with `null` on any parse
failure. -/
def decodeStateParameter (state : String) : Option MCPClientInfo :=
  (decodeURIComponent state).bind (fun t =>
    (atob t).bind (fun u => (jsonParse u).bind mcpClientInfoOfJson))

/-! ## Parse/stringify round-trip lemmas -/

theorem char_eq_ofNat {c : Char} {n : Nat} (h : c.toNat = n) : c = Char.ofNat n := by
  rw [← h, Char.ofNat_toNat]

theorem hexDigitVal_hexCodeLower : ∀ d < 16, hexDigitVal (hexCodeLower d) = some d := by
  decide


@[simp] theorem toNat_charOfNat {n : Nat} (h : n < 55296) : (Char.ofNat n).toNat = n :=
  charToNat_ofByte h


/-- Parsing one escaped character off a string body consumes exactly its
escape and restores the character. -/
theorem parseStringBody_escapeChar (c : Char) (tail : List Char) :
    parseStringBody (jsonEscapeChar c ++ tail) =
      (parseStringBody tail).map (fun p => (c :: p.1, p.2)) := by
  by_cases h34 : c.toNat = 34
  · rw [char_eq_ofNat h34]
    simp [jsonEscapeChar, parseStringBody, parseStringEscape]
  · by_cases h92 : c.toNat = 92
    · rw [char_eq_ofNat h92]
      simp [jsonEscapeChar, parseStringBody, parseStringEscape]
    · by_cases h8 : c.toNat = 8
      · rw [char_eq_ofNat h8]
        simp [jsonEscapeChar, parseStringBody, parseStringEscape]
      · by_cases h9 : c.toNat = 9
        · rw [char_eq_ofNat h9]
          simp [jsonEscapeChar, parseStringBody, parseStringEscape]
        · by_cases h10 : c.toNat = 10
          · rw [char_eq_ofNat h10]
            simp [jsonEscapeChar, parseStringBody, parseStringEscape]
          · by_cases h12 : c.toNat = 12
            · rw [char_eq_ofNat h12]
              simp [jsonEscapeChar, parseStringBody, parseStringEscape]
            · by_cases h13 : c.toNat = 13
              · rw [char_eq_ofNat h13]
                simp [jsonEscapeChar, parseStringBody, parseStringEscape]
              · by_cases hlt : c.toNat < 32
                · rw [jsonEscapeChar]
                  rw [if_neg h34, if_neg h92, if_neg h8, if_neg h9, if_neg h10,
                      if_neg h12, if_neg h13, if_pos hlt]
                  have hhi : hexCodeLower (c.toNat / 16) < 55296 := by
                    unfold hexCodeLower; split <;> omega
                  have hlo : hexCodeLower (c.toNat % 16) < 55296 := by
                    unfold hexCodeLower; split <;> omega
                  have hq : hexQuad (Char.ofNat 48) (Char.ofNat 48)
                      (Char.ofNat (hexCodeLower (c.toNat / 16)))
                      (Char.ofNat (hexCodeLower (c.toNat % 16))) = some c.toNat := by
                    rw [hexQuad]
                    rw [toNat_charOfNat (by omega), toNat_charOfNat hhi, toNat_charOfNat hlo]
                    rw [show hexDigitVal 48 = some 0 from by decide]
                    rw [hexDigitVal_hexCodeLower (c.toNat / 16) (by omega),
                        hexDigitVal_hexCodeLower (c.toNat % 16) (by omega)]
                    show some (0 * 4096 + 0 * 256 + c.toNat / 16 * 16 + c.toNat % 16) = _
                    congr 1
                    omega
                  have hp4 : parseHex4 (Char.ofNat 48 :: Char.ofNat 48 ::
                      Char.ofNat (hexCodeLower (c.toNat / 16)) ::
                      Char.ofNat (hexCodeLower (c.toNat % 16)) :: tail) =
                      some (c.toNat, tail) := by
                    show (match hexQuad (Char.ofNat 48) (Char.ofNat 48)
                        (Char.ofNat (hexCodeLower (c.toNat / 16)))
                        (Char.ofNat (hexCodeLower (c.toNat % 16))) with
                      | some n => some (n, tail)
                      | none => none) = some (c.toNat, tail)
                    rw [hq]
                  have hesc : parseStringEscape (Char.ofNat 117 :: Char.ofNat 48 ::
                      Char.ofNat 48 :: Char.ofNat (hexCodeLower (c.toNat / 16)) ::
                      Char.ofNat (hexCodeLower (c.toNat % 16)) :: tail) = some (c, tail) := by
                    rw [parseStringEscape]
                    rw [if_neg (by decide), if_neg (by decide), if_neg (by decide),
                        if_neg (by decide), if_neg (by decide), if_neg (by decide),
                        if_pos (by decide)]
                    rw [hp4]
                    show (if c.toNat < 0xD800 ∨ 0xDFFF < c.toNat then
                        some (Char.ofNat c.toNat, tail)
                      else if c.toNat < 0xDC00 then
                        parseLowSurrogatePair c.toNat tail
                      else none) = some (c, tail)
                    rw [if_pos (by omega : c.toNat < 0xD800 ∨ 0xDFFF < c.toNat)]
                    rw [Char.ofNat_toNat]
                  show parseStringBody (Char.ofNat 92 :: Char.ofNat 117 :: Char.ofNat 48 ::
                    Char.ofNat 48 :: Char.ofNat (hexCodeLower (c.toNat / 16)) ::
                    Char.ofNat (hexCodeLower (c.toNat % 16)) :: tail) = _
                  rw [parseStringBody]
                  rw [if_neg (by decide), if_pos (by decide)]
                  split
                  · rename_i ch rest2 heq
                    rw [hesc] at heq
                    simp only [Option.some.injEq, Prod.mk.injEq] at heq
                    obtain ⟨rfl, rfl⟩ := heq
                    rfl
                  · rename_i heq
                    rw [hesc] at heq
                    simp at heq
                · have hesc : jsonEscapeChar c = [c] := by
                    rw [jsonEscapeChar]
                    rw [if_neg h34, if_neg h92, if_neg h8, if_neg h9, if_neg h10,
                        if_neg h12, if_neg h13, if_neg hlt]
                  rw [hesc]
                  show parseStringBody (c :: tail) = _
                  rw [parseStringBody]
                  rw [if_neg h34, if_neg h92, if_neg (by omega : ¬c.toNat < 32)]

/-- Parsing a string body inverts escaping. -/
theorem parseStringBody_escape (l : List Char) (rest : List Char) :
    parseStringBody ((l.map jsonEscapeChar).flatten ++ Char.ofNat 34 :: rest) =
      some (l, rest) := by
  induction l with
  | nil =>
      show parseStringBody (Char.ofNat 34 :: rest) = some ([], rest)
      rw [parseStringBody]
      rw [if_pos (by decide : (Char.ofNat 34).toNat = 34)]
  | cons c l' ih =>
      rw [List.map_cons, List.flatten_cons, List.append_assoc]
      rw [parseStringBody_escapeChar, ih]
      rfl

/-- Heads that cannot begin or continue a number. -/
def headNotDigit : List Char → Bool
  | [] => true
  | c :: _ => (digitVal c).isNone

theorem natCharsCore_digits (n : Nat) :
    ∀ c ∈ natCharsCore n, 48 ≤ c.toNat ∧ c.toNat ≤ 57 := by
  induction n using Nat.strong_induction_on with
  | _ n ih =>
      intro c hc
      rw [natCharsCore] at hc
      by_cases h0 : n = 0
      · rw [if_pos h0] at hc
        simp at hc
      · rw [if_neg h0] at hc
        rw [List.mem_append] at hc
        rcases hc with hc | hc
        · exact ih (n / 10) (Nat.div_lt_self (Nat.pos_of_ne_zero h0) (by omega)) c hc
        · simp at hc
          subst hc
          rw [toNat_charOfNat (by omega)]
          omega

theorem natChars_digits (n : Nat) :
    ∀ c ∈ natChars n, 48 ≤ c.toNat ∧ c.toNat ≤ 57 := by
  intro c hc
  rw [natChars] at hc
  by_cases h0 : n = 0
  · rw [if_pos h0] at hc
    simp at hc
    subst hc
    rw [toNat_charOfNat (by omega)]
    omega
  · rw [if_neg h0] at hc
    exact natCharsCore_digits n c hc

theorem natCharsCore_ne_nil {n : Nat} (h : n ≠ 0) : natCharsCore n ≠ [] := by
  rw [natCharsCore, if_neg h]
  simp

theorem parseDigitsAux_stop (acc : Nat) (rest : List Char)
    (h : headNotDigit rest = true) : parseDigitsAux acc rest = (acc, rest) := by
  cases rest with
  | nil => rfl
  | cons c cs =>
      rw [parseDigitsAux]
      rw [headNotDigit] at h
      rw [Option.isNone_iff_eq_none] at h
      rw [h]

theorem parseDigitsAux_append (n : Nat) :
    ∀ acc rest, parseDigitsAux acc (natCharsCore n ++ rest) =
      parseDigitsAux (acc * 10 ^ (natCharsCore n).length + n) rest := by
  induction n using Nat.strong_induction_on with
  | _ n ih =>
      intro acc rest
      by_cases h0 : n = 0
      · subst h0
        rw [natCharsCore]
        simp
      · rw [natCharsCore, if_neg h0, List.append_assoc]
        rw [ih (n / 10) (Nat.div_lt_self (Nat.pos_of_ne_zero h0) (by omega))]
        rw [List.singleton_append]
        rw [parseDigitsAux]
        rw [show digitVal (Char.ofNat (48 + n % 10)) = some (n % 10) from by
          rw [digitVal, toNat_charOfNat (by omega), if_pos (by omega)]
          congr 1
          omega]
        dsimp only
        congr 1
        simp only [List.length_append, List.length_cons, List.length_nil]
        rw [pow_succ, ← mul_assoc]
        have hdm := Nat.div_add_mod n 10
        generalize acc * 10 ^ (natCharsCore (n / 10)).length = Q
        omega

theorem parseNat_natChars (n : Nat) (rest : List Char)
    (h : headNotDigit rest = true) :
    parseNat (natChars n ++ rest) = some (n, rest) := by
  by_cases h0 : n = 0
  · subst h0
    rw [natChars]
    simp only [if_pos rfl]
    show parseNat (Char.ofNat 48 :: rest) = some (0, rest)
    rw [parseNat]
    rw [show digitVal (Char.ofNat 48) = some 0 from by decide]
    dsimp only
    rw [parseDigitsAux]
    rw [show digitVal (Char.ofNat 48) = some 0 from by decide]
    dsimp only
    rw [parseDigitsAux_stop _ _ h]
  · rw [natChars, if_neg h0]
    cases hcore : natCharsCore n with
    | nil => exact absurd hcore (natCharsCore_ne_nil h0)
    | cons c cs =>
        have hdig : 48 ≤ c.toNat ∧ c.toNat ≤ 57 :=
          natCharsCore_digits n c (by rw [hcore]; simp)
        show parseNat (c :: (cs ++ rest)) = some (n, rest)
        rw [parseNat]
        rw [show digitVal c = some (c.toNat - 48) from by
          rw [digitVal, if_pos (by omega)]]
        dsimp only
        have happ := parseDigitsAux_append n 0 rest
        rw [hcore, List.cons_append] at happ
        rw [happ, Nat.zero_mul, Nat.zero_add, parseDigitsAux_stop _ _ h]

theorem intChars_shape (i : Int) :
    ∃ c cs, intChars i = c :: cs ∧
      (c.toNat = 45 ∨ (48 ≤ c.toNat ∧ c.toNat ≤ 57)) := by
  rw [intChars]
  by_cases hneg : i < 0
  · rw [if_pos hneg]
    exact ⟨Char.ofNat 45, _, rfl, Or.inl (by decide)⟩
  · rw [if_neg hneg]
    cases hnc : natChars i.toNat with
    | nil =>
        exfalso
        rw [natChars] at hnc
        by_cases h0 : i.toNat = 0
        · rw [if_pos h0] at hnc; simp at hnc
        · rw [if_neg h0] at hnc; exact natCharsCore_ne_nil h0 hnc
    | cons c cs =>
        refine ⟨c, cs, rfl, Or.inr ?_⟩
        exact natChars_digits i.toNat c (by rw [hnc]; simp)

theorem parseNumber_intChars (i : Int) (rest : List Char)
    (hnd : headNotDigit rest = true) (hok : numberFollowOk rest = true) :
    parseNumber (intChars i ++ rest) = some (i, rest) := by
  by_cases hneg : i < 0
  · rw [intChars, if_pos hneg]
    show parseNumber (Char.ofNat 45 :: (natChars i.natAbs ++ rest)) = some (i, rest)
    rw [parseNumber]
    rw [if_pos (by decide : (Char.ofNat 45).toNat = 45)]
    rw [parseNat_natChars i.natAbs rest hnd]
    dsimp only
    rw [hok, if_pos rfl]
    congr 1
    congr 1
    omega
  · rw [intChars, if_neg hneg]
    cases hnc : natChars i.toNat with
    | nil =>
        exfalso
        rw [natChars] at hnc
        by_cases h0 : i.toNat = 0
        · rw [if_pos h0] at hnc; simp at hnc
        · rw [if_neg h0] at hnc; exact natCharsCore_ne_nil h0 hnc
    | cons c cs =>
        have hdig : 48 ≤ c.toNat ∧ c.toNat ≤ 57 :=
          natChars_digits i.toNat c (by rw [hnc]; simp)
        show parseNumber (c :: (cs ++ rest)) = some (i, rest)
        rw [parseNumber]
        rw [if_neg (by omega : ¬c.toNat = 45)]
        have hp := parseNat_natChars i.toNat rest hnd
        rw [hnc, List.cons_append] at hp
        rw [hp]
        dsimp only
        rw [hok, if_pos rfl]
        congr 1
        congr 1
        omega

theorem skipWs_cons {c : Char} (cs : List Char) (h : isJsonWs c = false) :
    skipWs (c :: cs) = c :: cs := by
  simp [skipWs, List.dropWhile_cons, h]

/-- The flat values appearing in relay-state objects. -/
def isAtomJson (j : Json) : Prop := (∃ s, j = .str s) ∨ (∃ i, j = .num i)

theorem parseValue_str (fuel : Nat) (s : String) (rest : List Char) :
    parseValue (fuel + 1) (jsonQuoteChars s ++ rest) = some (.str s, rest) := by
  show parseValue (fuel + 1)
    ((Char.ofNat 34 :: ((s.data.map jsonEscapeChar).flatten ++ [Char.ofNat 34])) ++ rest) = _
  rw [List.cons_append, List.append_assoc, List.singleton_append]
  rw [parseValue]
  rw [skipWs_cons _ (by decide)]
  dsimp only
  rw [if_neg (by decide), if_neg (by decide), if_neg (by decide), if_pos (by decide)]
  rw [parseStringBody_escape]

theorem parseValue_num (fuel : Nat) (i : Int) (rest : List Char)
    (hnd : headNotDigit rest = true) (hok : numberFollowOk rest = true) :
    parseValue (fuel + 1) (intChars i ++ rest) = some (.num i, rest) := by
  obtain ⟨c, cs, hic, hc⟩ := intChars_shape i
  rw [hic, List.cons_append]
  rw [parseValue]
  rw [skipWs_cons _ (by simp [isJsonWs]; omega)]
  dsimp only
  rw [if_neg (by omega), if_neg (by omega), if_neg (by omega), if_neg (by omega)]
  rw [if_pos (show c.toNat = 45 ∨ (digitVal c).isSome by
    rcases hc with h45 | hdig
    · exact Or.inl h45
    · right
      rw [digitVal, if_pos hdig]
      rfl)]
  have hp := parseNumber_intChars i rest hnd hok
  rw [hic, List.cons_append] at hp
  rw [hp]

theorem parseValue_atom (fuel : Nat) (v : Json) (rest : List Char)
    (hv : isAtomJson v) (hnd : headNotDigit rest = true)
    (hok : numberFollowOk rest = true) :
    parseValue (fuel + 1) (stringifyJson v ++ rest) = some (v, rest) := by
  rcases hv with ⟨s, rfl⟩ | ⟨i, rfl⟩
  · rw [show stringifyJson (.str s) = jsonQuoteChars s from by rw [stringifyJson]]
    exact parseValue_str fuel s rest
  · rw [show stringifyJson (.num i) = intChars i from by rw [stringifyJson]]
    exact parseValue_num fuel i rest hnd hok

theorem parseMemberKV_mk (fuel : Nat) (k : String) (v : Json) (rest : List Char)
    (hv : isAtomJson v) (hnd : headNotDigit rest = true)
    (hok : numberFollowOk rest = true) :
    parseMemberKV (fuel + 2)
      (jsonQuoteChars k ++ Char.ofNat 58 :: (stringifyJson v ++ rest)) =
      some ((k, v), rest) := by
  show parseMemberKV (fuel + 2)
    ((Char.ofNat 34 :: ((k.data.map jsonEscapeChar).flatten ++ [Char.ofNat 34])) ++
      Char.ofNat 58 :: (stringifyJson v ++ rest)) = _
  rw [List.cons_append, List.append_assoc, List.singleton_append]
  rw [parseMemberKV]
  rw [skipWs_cons _ (by decide)]
  dsimp only
  rw [if_pos (by decide : (Char.ofNat 34).toNat = 34)]
  rw [parseStringBody_escape]
  dsimp only
  rw [skipWs_cons _ (by decide)]
  dsimp only
  rw [if_pos (by decide : (Char.ofNat 58).toNat = 58)]
  rw [parseValue_atom fuel v rest hv hnd hok]

/-- Serialization of the members after the first: a comma before each. -/
def stringifyMembersRest : List (String × Json) → List Char
  | [] => []
  | (k, v) :: rest =>
      Char.ofNat 44 :: ((jsonQuoteChars k ++ Char.ofNat 58 :: stringifyJson v) ++
        stringifyMembersRest rest)

theorem stringifyObjFields_split (k : String) (v : Json)
    (rest : List (String × Json)) :
    stringifyObjFields ((k, v) :: rest) =
      (jsonQuoteChars k ++ Char.ofNat 58 :: stringifyJson v) ++
        stringifyMembersRest rest := by
  induction rest generalizing k v with
  | nil =>
      rw [stringifyObjFields, stringifyMembersRest, List.append_nil]
  | cons p rest' ih =>
      obtain ⟨k', v'⟩ := p
      rw [stringifyObjFields, stringifyMembersRest]
      rw [ih k' v']

theorem boundary_membersRest (rem : List (String × Json)) (rest : List Char) :
    headNotDigit (stringifyMembersRest rem ++ Char.ofNat 125 :: rest) = true ∧
      numberFollowOk (stringifyMembersRest rem ++ Char.ofNat 125 :: rest) = true := by
  cases rem with
  | nil => exact ⟨rfl, rfl⟩
  | cons p rem' =>
      obtain ⟨k, v⟩ := p
      exact ⟨rfl, rfl⟩

theorem parseMembersRest_stringify (remaining : List (String × Json)) :
    ∀ (fuel : Nat) (acc : List (String × Json)) (rest : List Char),
      (∀ kv ∈ remaining, isAtomJson kv.2) →
      remaining.length + 2 ≤ fuel →
      parseMembersRest fuel acc
        (stringifyMembersRest remaining ++ Char.ofNat 125 :: rest) =
        some (.obj ((acc ++ remaining).foldl (fun o kv => objSet o kv.1 kv.2) []), rest) := by
  induction remaining with
  | nil =>
      intro fuel acc rest _ hfuel
      obtain ⟨f, rfl⟩ : ∃ f, fuel = f + 1 := ⟨fuel - 1, by omega⟩
      show parseMembersRest (f + 1) acc (Char.ofNat 125 :: rest) = _
      rw [parseMembersRest]
      rw [skipWs_cons _ (by decide)]
      dsimp only
      rw [if_pos (by decide : (Char.ofNat 125).toNat = 125)]
      rw [List.append_nil]
  | cons p rem ih =>
      intro fuel acc rest hatoms hfuel
      obtain ⟨k, v⟩ := p
      obtain ⟨f, rfl⟩ : ∃ f, fuel = f + 1 := ⟨fuel - 1, by omega⟩
      rw [stringifyMembersRest, List.cons_append]
      rw [parseMembersRest]
      rw [skipWs_cons _ (by decide)]
      dsimp only
      rw [if_neg (by decide), if_pos (by decide : (Char.ofNat 44).toNat = 44)]
      obtain ⟨g, rfl⟩ : ∃ g, f = g + 2 := ⟨f - 2, by simp at hfuel; omega⟩
      have hb := boundary_membersRest rem rest
      have hm := parseMemberKV_mk g k v (stringifyMembersRest rem ++ Char.ofNat 125 :: rest)
        (hatoms (k, v) (by simp)) hb.1 hb.2
      simp only [List.append_assoc, List.cons_append] at hm ⊢
      rw [hm]
      dsimp only
      rw [ih (g + 2) (acc ++ [(k, v)]) rest
        (fun kv hkv => hatoms kv (by simp [hkv])) (by simp at hfuel ⊢; omega)]
      congr 2
      simp

/-- Parsing a serialized flat object recovers its members (assembled
with JS assignment semantics). -/
theorem parseValue_flatObj (k0 : String) (v0 : Json) (rem : List (String × Json))
    (fuel : Nat) (rest : List Char)
    (hatoms : ∀ kv ∈ (k0, v0) :: rem, isAtomJson kv.2)
    (hfuel : rem.length + 4 ≤ fuel) :
    parseValue (fuel + 1) (stringifyJson (.obj ((k0, v0) :: rem)) ++ rest) =
      some (.obj (((k0, v0) :: rem).foldl (fun o kv => objSet o kv.1 kv.2) []), rest) := by
  rw [show stringifyJson (.obj ((k0, v0) :: rem)) =
    Char.ofNat 123 :: stringifyObjFields ((k0, v0) :: rem) ++ [Char.ofNat 125] from by
      rw [stringifyJson]]
  rw [stringifyObjFields_split]
  rw [show jsonQuoteChars k0 = Char.ofNat 34 ::
    ((k0.data.map jsonEscapeChar).flatten ++ [Char.ofNat 34]) from rfl]
  simp only [List.cons_append, List.append_assoc, List.singleton_append]
  rw [parseValue]
  rw [skipWs_cons _ (by decide)]
  dsimp only
  rw [if_neg (by decide), if_neg (by decide), if_neg (by decide), if_neg (by decide),
      if_neg (by decide), if_neg (by decide), if_pos (by decide : (Char.ofNat 123).toNat = 123)]
  rw [skipWs_cons _ (by decide)]
  dsimp only
  rw [if_neg (by decide)]
  obtain ⟨g, rfl⟩ : ∃ g, fuel = g + 2 := ⟨fuel - 2, by omega⟩
  have hb := boundary_membersRest rem rest
  have hm := parseMemberKV_mk g k0 v0 (stringifyMembersRest rem ++ Char.ofNat 125 :: rest)
    (hatoms (k0, v0) (by simp)) hb.1 hb.2
  rw [show jsonQuoteChars k0 = Char.ofNat 34 ::
    ((k0.data.map jsonEscapeChar).flatten ++ [Char.ofNat 34]) from rfl] at hm
  simp only [List.cons_append, List.append_assoc, List.singleton_append,
    List.nil_append] at hm ⊢
  rw [hm]
  dsimp only
  rw [parseMembersRest_stringify rem (g + 2) [(k0, v0)] rest
    (fun kv hkv => hatoms kv (by simp [hkv])) (by omega)]
  rfl

/-- Folding JS assignments over members with pairwise-distinct keys just
rebuilds the member list. -/
theorem foldl_objSet_nodup (fields : List (String × Json)) :
    ∀ acc : List (String × Json),
      (acc.map Prod.fst ++ fields.map Prod.fst).Nodup →
      fields.foldl (fun o kv => objSet o kv.1 kv.2) acc = acc ++ fields := by
  induction fields with
  | nil => intro acc _; simp
  | cons p rem ih =>
      intro acc hnd
      obtain ⟨k, v⟩ := p
      rw [List.foldl_cons]
      have hknot : ¬ acc.any (fun q => q.1 = k) := by
        simp only [List.map_cons] at hnd
        have hk : k ∉ acc.map Prod.fst := by
          rw [List.nodup_append] at hnd
          intro hmem
          exact hnd.2.2 hmem (by simp)
        intro hany
        rw [List.any_eq_true] at hany
        obtain ⟨q, hq, hqk⟩ := hany
        simp at hqk
        exact hk (by rw [← hqk]; exact List.mem_map_of_mem Prod.fst hq)
      rw [show objSet acc k v = acc ++ [(k, v)] from by
        rw [objSet, if_neg hknot]]
      rw [ih (acc ++ [(k, v)]) (by
        simp only [List.map_append, List.map_cons, List.map_nil] at hnd ⊢
        simpa [List.append_assoc] using hnd)]
      simp

theorem jsonQuoteChars_length_ge (k : String) : 2 ≤ (jsonQuoteChars k).length := by
  simp [jsonQuoteChars]

theorem stringifyMembersRest_length_ge (rem : List (String × Json)) :
    rem.length ≤ (stringifyMembersRest rem).length := by
  induction rem with
  | nil => simp [stringifyMembersRest]
  | cons p rem' ih =>
      obtain ⟨k, v⟩ := p
      rw [stringifyMembersRest]
      simp only [List.length_cons, List.length_append]
      omega

theorem stringify_flatObj_length_ge (k0 : String) (v0 : Json)
    (rem : List (String × Json)) :
    rem.length + 3 ≤ (stringifyJson (.obj ((k0, v0) :: rem))).length := by
  rw [show stringifyJson (.obj ((k0, v0) :: rem)) =
    Char.ofNat 123 :: stringifyObjFields ((k0, v0) :: rem) ++ [Char.ofNat 125] from by
      rw [stringifyJson]]
  rw [stringifyObjFields_split]
  have h1 := jsonQuoteChars_length_ge k0
  have h2 := stringifyMembersRest_length_ge rem
  simp only [List.length_cons, List.length_append, List.length_singleton]
  omega

/-- `JSON.parse` recovers a serialized flat object whole. -/
theorem jsonParse_stringify_flatObj (k0 : String) (v0 : Json)
    (rem : List (String × Json))
    (hatoms : ∀ kv ∈ (k0, v0) :: rem, isAtomJson kv.2) :
    jsonParse (String.mk (stringifyJson (.obj ((k0, v0) :: rem)))) =
      some (.obj (((k0, v0) :: rem).foldl (fun o kv => objSet o kv.1 kv.2) [])) := by
  rw [jsonParse]
  have hlen := stringify_flatObj_length_ge k0 v0 rem
  have hparse := parseValue_flatObj k0 v0 rem
    ((String.mk (stringifyJson (.obj ((k0, v0) :: rem)))).length + 1) []
    hatoms (by
      show rem.length + 4 ≤ (stringifyJson (.obj ((k0, v0) :: rem))).length + 1
      omega)
  rw [List.append_nil] at hparse
  rw [show (String.mk (stringifyJson (.obj ((k0, v0) :: rem)))).length =
    (stringifyJson (.obj ((k0, v0) :: rem))).length from rfl] at hparse
  show (match parseValue ((stringifyJson (.obj ((k0, v0) :: rem))).length + 1 + 1)
      (stringifyJson (.obj ((k0, v0) :: rem))) with
    | some (j, rest) => if skipWs rest = [] then some j else none
    | none => none) = _
  rw [hparse]
  rfl

theorem jsonParse_stringify_mcp (info : MCPClientInfo) :
    jsonParse (String.mk (stringifyJson (mcpClientInfoToJson info))) =
      some (mcpClientInfoToJson info) := by
  obtain ⟨cid, ruri, os, cc, ccm, res, ts⟩ := info
  rcases os with _ | os <;> rcases res with _ | res <;>
  · simp only [mcpClientInfoToJson, List.cons_append, List.nil_append, List.append_nil]
    rw [jsonParse_stringify_flatObj _ _ _ (by
      intro kv hkv
      simp only [List.mem_cons, List.not_mem_nil, or_false] at hkv
      rcases hkv with rfl | hkv
      · simp [isAtomJson]
      · repeat'
          first
          | (rcases hkv with rfl | hkv; · simp [isAtomJson])
          | (subst hkv; simp [isAtomJson]))]
    rw [foldl_objSet_nodup _ [] (by simp)]
    rfl

/-- The typed field reading inverts the object construction. -/
theorem mcpClientInfoOfJson_toJson (info : MCPClientInfo) :
    mcpClientInfoOfJson (mcpClientInfoToJson info) = some info := by
  obtain ⟨cid, ruri, os, cc, ccm, res, ts⟩ := info
  rcases os with _ | os <;> rcases res with _ | res <;>
  · simp only [mcpClientInfoToJson, List.cons_append, List.nil_append, List.append_nil]
    simp [mcpClientInfoOfJson, objGet, optStrField, List.find?]

/-! ## Latin-1 side conditions for `btoa` -/

/-- Every character of the list fits in one latin-1 byte. -/
def allLatin1 (l : List Char) : Prop := ∀ c ∈ l, c.toNat < 256

/-- A value of the state object whose serialization stays latin-1. -/
def valueLatin1 : Json → Prop
  | .str s => allLatin1 s.data
  | .num _ => True
  | _ => False

theorem jsonEscapeChar_latin1 {c : Char} (h : c.toNat < 256) :
    ∀ x ∈ jsonEscapeChar c, x.toNat < 256 := by
  intro x hx
  rw [jsonEscapeChar] at hx
  have hhi : hexCodeLower (c.toNat / 16) < 256 := by unfold hexCodeLower; split <;> omega
  have hlo : hexCodeLower (c.toNat % 16) < 256 := by unfold hexCodeLower; split <;> omega
  repeat' split at hx
  all_goals simp at hx
  all_goals rcases hx with rfl | rfl | rfl | rfl | rfl | rfl <;>
    first
    | omega
    | (rw [toNat_charOfNat (by omega)]; omega)

theorem jsonQuoteChars_latin1 {s : String} (h : allLatin1 s.data) :
    ∀ x ∈ jsonQuoteChars s, x.toNat < 256 := by
  intro x hx
  rw [jsonQuoteChars, List.cons_append, List.mem_cons] at hx
  rcases hx with rfl | hx
  · rw [toNat_charOfNat (by omega)]; omega
  · rw [List.mem_append] at hx
    rcases hx with hx | hx
    · rw [List.mem_flatten] at hx
      obtain ⟨l, hl, hxl⟩ := hx
      rw [List.mem_map] at hl
      obtain ⟨c, hc, rfl⟩ := hl
      exact jsonEscapeChar_latin1 (h c hc) x hxl
    · rw [List.mem_singleton] at hx
      subst hx
      rw [toNat_charOfNat (by omega)]; omega

theorem intChars_latin1 (i : Int) : ∀ x ∈ intChars i, x.toNat < 256 := by
  intro x hx
  rw [intChars] at hx
  split at hx
  · simp only [List.mem_cons] at hx
    rcases hx with rfl | hx
    · rw [toNat_charOfNat (by omega)]; omega
    · have := natChars_digits _ x hx
      omega
  · have := natChars_digits _ x hx
    omega

theorem stringifyJson_atom_latin1 {v : Json} (ha : isAtomJson v) (hl : valueLatin1 v) :
    ∀ x ∈ stringifyJson v, x.toNat < 256 := by
  rcases ha with ⟨s, rfl⟩ | ⟨i, rfl⟩
  · rw [show stringifyJson (.str s) = jsonQuoteChars s from by rw [stringifyJson]]
    exact jsonQuoteChars_latin1 hl
  · rw [show stringifyJson (.num i) = intChars i from by rw [stringifyJson]]
    exact intChars_latin1 i

theorem stringifyMembersRest_latin1 (rem : List (String × Json))
    (h : ∀ kv ∈ rem, allLatin1 kv.1.data ∧ isAtomJson kv.2 ∧ valueLatin1 kv.2) :
    ∀ x ∈ stringifyMembersRest rem, x.toNat < 256 := by
  induction rem with
  | nil => simp [stringifyMembersRest]
  | cons p rem' ih =>
      obtain ⟨k, v⟩ := p
      intro x hx
      rw [stringifyMembersRest, List.mem_cons] at hx
      obtain ⟨hk, hva, hvl⟩ := h (k, v) (by simp)
      rcases hx with rfl | hx
      · rw [toNat_charOfNat (by omega)]; omega
      · rw [List.mem_append] at hx
        rcases hx with hx | hx
        · rw [List.mem_append] at hx
          rcases hx with hx | hx
          · exact jsonQuoteChars_latin1 hk x hx
          · rw [List.mem_cons] at hx
            rcases hx with rfl | hx
            · rw [toNat_charOfNat (by omega)]; omega
            · exact stringifyJson_atom_latin1 hva hvl x hx
        · exact ih (fun kv hkv => h kv (by simp [hkv])) x hx

theorem stringify_flatObj_latin1 (k0 : String) (v0 : Json) (rem : List (String × Json))
    (h : ∀ kv ∈ (k0, v0) :: rem, allLatin1 kv.1.data ∧ isAtomJson kv.2 ∧ valueLatin1 kv.2) :
    ∀ x ∈ stringifyJson (.obj ((k0, v0) :: rem)), x.toNat < 256 := by
  intro x hx
  rw [show stringifyJson (.obj ((k0, v0) :: rem)) =
    Char.ofNat 123 :: stringifyObjFields ((k0, v0) :: rem) ++ [Char.ofNat 125] from by
      rw [stringifyJson]] at hx
  rw [stringifyObjFields_split] at hx
  obtain ⟨hk, hva, hvl⟩ := h (k0, v0) (by simp)
  rw [List.cons_append, List.mem_cons] at hx
  rcases hx with rfl | hx
  · rw [toNat_charOfNat (by omega)]; omega
  · rw [List.mem_append] at hx
    rcases hx with hx | hx
    · rw [List.mem_append] at hx
      rcases hx with hx | hx
      · rw [List.mem_append] at hx
        rcases hx with hx | hx
        · exact jsonQuoteChars_latin1 hk x hx
        · rw [List.mem_cons] at hx
          rcases hx with rfl | hx
          · rw [toNat_charOfNat (by omega)]; omega
          · exact stringifyJson_atom_latin1 hva hvl x hx
      · exact stringifyMembersRest_latin1 rem (fun kv hkv => h kv (by simp [hkv])) x hx
    · rw [List.mem_singleton] at hx
      subst hx
      rw [toNat_charOfNat (by omega)]; omega

/-- Every string field of the state is latin-1, so `btoa` accepts its
serialization. -/
def mcpLatin1 (info : MCPClientInfo) : Prop :=
  allLatin1 info.client_id.data ∧ allLatin1 info.redirect_uri.data ∧
  (∀ s, info.original_state = some s → allLatin1 s.data) ∧
  allLatin1 info.code_challenge.data ∧ allLatin1 info.code_challenge_method.data ∧
  (∀ s, info.resource = some s → allLatin1 s.data)

theorem encodeState_latin1_chars (info : MCPClientInfo) (h : mcpLatin1 info) :
    ∀ x ∈ stringifyJson (mcpClientInfoToJson info), x.toNat < 256 := by
  obtain ⟨h1, h2, h3, h4, h5, h6⟩ := h
  obtain ⟨cid, ruri, os, cc, ccm, res, ts⟩ := info
  simp only at h1 h2 h3 h4 h5 h6
  rcases os with _ | os <;> rcases res with _ | res <;>
  · simp only [mcpClientInfoToJson, List.cons_append, List.nil_append, List.append_nil]
    refine stringify_flatObj_latin1 _ _ _ ?_
    intro kv hkv
    simp only [List.mem_cons, List.not_mem_nil, or_false] at hkv
    repeat'
      rcases hkv with rfl | hkv
    all_goals dsimp only
    all_goals refine ⟨by unfold allLatin1; decide, ?_, ?_⟩
    all_goals first
      | exact Or.inl ⟨_, rfl⟩
      | exact Or.inr ⟨_, rfl⟩
      | (first
          | exact h1
          | exact h2
          | exact (h3 _ rfl)
          | exact h4
          | exact h5
          | exact (h6 _ rfl)
          | trivial)

/-- The state codec round-trips on every latin-1 state. -/
theorem decodeState_encodeState (info : MCPClientInfo) (h : mcpLatin1 info) :
    (encodeStateParameter info).bind decodeStateParameter = some info := by
  have hlat : (String.mk (stringifyJson (mcpClientInfoToJson info))).data.all
      (fun c => c.toNat < 256) = true := by
    rw [List.all_eq_true]
    intro c hc
    simp only [decide_eq_true_eq]
    exact encodeState_latin1_chars info h c hc
  rw [encodeStateParameter]
  rw [btoa, if_pos hlat]
  show decodeStateParameter (encodeURIComponent (String.mk (base64EncodeBytes
    ((String.mk (stringifyJson (mcpClientInfoToJson info))).data.map Char.toNat)))) = some info
  rw [decodeStateParameter]
  rw [decodeURIComponent_encodeURIComponent]
  show (atob (String.mk (base64EncodeBytes
    ((String.mk (stringifyJson (mcpClientInfoToJson info))).data.map Char.toNat)))).bind
    (fun u => (jsonParse u).bind mcpClientInfoOfJson) = some info
  have hatob := atob_btoa (String.mk (stringifyJson (mcpClientInfoToJson info))) hlat
  rw [btoa, if_pos hlat] at hatob
  rw [show (some (String.mk (base64EncodeBytes
    ((String.mk (stringifyJson (mcpClientInfoToJson info))).data.map Char.toNat)))).bind atob =
    atob (String.mk (base64EncodeBytes
      ((String.mk (stringifyJson (mcpClientInfoToJson info))).data.map Char.toNat))) from
    rfl] at hatob
  rw [hatob]
  show (jsonParse (String.mk (stringifyJson (mcpClientInfoToJson info)))).bind
    mcpClientInfoOfJson = some info
  rw [jsonParse_stringify_mcp]
  show mcpClientInfoOfJson (mcpClientInfoToJson info) = some info
  exact mcpClientInfoOfJson_toJson info

/-! ## URL model

A model of `new URL(...)` covering what the routes consult: scheme and
hostname extraction with WHATWG-style normalization (lower-casing,
optional authority, port stripping, bracketed IPv6 hosts, numeric port
validation). Path, query and fragment structure, host-character
validation and IDNA are not consulted by the code under study and are
not modelled; `none` models the `TypeError` the constructor throws. -/

structure ParsedUrl where
  scheme : String
  hostname : String
  deriving Repr, DecidableEq

def isAsciiAlpha (n : Nat) : Bool :=
  decide ((65 ≤ n ∧ n ≤ 90) ∨ (97 ≤ n ∧ n ≤ 122))

def isSchemeChar (n : Nat) : Bool :=
  isAsciiAlpha n || decide ((48 ≤ n ∧ n ≤ 57) ∨ n = 43 ∨ n = 45 ∨ n = 46)

/-- Split the input at the scheme-terminating colon. -/
def splitAtColon : List Char → Option (List Char × List Char)
  | [] => none
  | c :: rest =>
    if c.toNat = 58 then some ([], rest)
    else if isSchemeChar c.toNat then
      (splitAtColon rest).map (fun p => (c :: p.1, p.2))
    else none

/-- The WHATWG special schemes. -/
def specialSchemes : List String := ["http", "https", "ws", "wss", "ftp", "file"]

/-- The authority runs up to the first `/`, `?` or `#`. -/
def takeAuthority (cs : List Char) : List Char :=
  cs.takeWhile (fun c => ¬(c.toNat = 47 ∨ c.toNat = 63 ∨ c.toNat = 35))

/-- Userinfo before the last `@` is not part of the host. -/
def dropUserinfo (cs : List Char) : List Char :=
  if cs.any (fun c => c.toNat = 64) then
    (cs.reverse.takeWhile (fun c => c.toNat ≠ 64)).reverse
  else cs

/-- Separate the host from an optional `:port`; a non-numeric port makes
the parse fail, and a bracketed IPv6 host keeps its brackets, as in the
WHATWG `hostname` getter. -/
def stripPort (cs : List Char) : Option (List Char) :=
  match cs with
  | [] => some []
  | c :: rest =>
    if c.toNat = 91 then
      let inside := rest.takeWhile (fun d => d.toNat ≠ 93)
      match rest.drop inside.length with
      | b :: rest2 =>
          match rest2 with
          | [] => some (c :: (inside ++ [b]))
          | colon :: port =>
              if colon.toNat = 58 ∧ port.all (fun d => 48 ≤ d.toNat ∧ d.toNat ≤ 57) then
                some (c :: (inside ++ [b]))
              else none
      | [] => none
    else
      let host := cs.takeWhile (fun d => d.toNat ≠ 58)
      match cs.drop host.length with
      | [] => some host
      | _ :: port =>
          if port.all (fun d => 48 ≤ d.toNat ∧ d.toNat ≤ 57) then some host else none

/-- Scheme and hostname of a URL string, or `none` when `new URL` throws. -/
def urlParse (s : String) : Option ParsedUrl :=
  match splitAtColon s.data with
  | none => none
  | some (schemeCs, rest) =>
    match schemeCs with
    | [] => none
    | c0 :: _ =>
      if isAsciiAlpha c0.toNat then
        let scheme := String.mk (schemeCs.map Char.toLower)
        if specialSchemes.contains scheme then
          let afterSlashes := rest.dropWhile (fun c => c.toNat = 47 ∨ c.toNat = 92)
          match stripPort (dropUserinfo (takeAuthority afterSlashes)) with
          | none => none
          | some host =>
              if host = [] ∧ scheme ≠ "file" then none
              else some ⟨scheme, String.mk (host.map Char.toLower)⟩
        else
          match rest with
          | s1 :: s2 :: rest2 =>
              if s1.toNat = 47 ∧ s2.toNat = 47 then
                match stripPort (dropUserinfo (takeAuthority rest2)) with
                | none => none
                | some host => some ⟨scheme, String.mk (host.map Char.toLower)⟩
              else some ⟨scheme, ""⟩
          | _ => some ⟨scheme, ""⟩
      else none

/-! ## Redirect URI validation (api/authorize.ts, both variants) -/

/-- The deny-list of dangerous schemes. -/
def dangerousSchemes : List String := ["javascript", "data", "vbscript", "file"]

/-- The allow-list of redirect URI schemes. -/
def allowedSchemes : List String :=
  ["https", "http", "vscode", "ms-vscode", "chrome-extension", "moz-extension"]

/-- The hostnames for which plain `http` redirect URIs are allowed. -/
def localhostHostnames : List String := ["localhost", "127.0.0.1", "::1"]

/-- `isValidRedirectUri` (original authorize route): dangerous schemes
are blocked, `http` only for localhost, then the allow-list decides. -/
def isValidRedirectUri (redirectUri : String) : Bool :=
  match urlParse redirectUri with
  | none => false
  | some url =>
    if dangerousSchemes.contains url.scheme then false
    else if url.scheme = "http" ∧ ¬localhostHostnames.contains url.hostname then false
    else allowedSchemes.contains url.scheme

/-- An OAuth error payload `{error, error_description?, error_uri?,
state?}`. -/
structure AuthorizationError where
  error : String
  error_description : Option String
  error_uri : Option String
  state : Option String
  deriving Repr, DecidableEq

/-- The error payload shared by every redirect-URI rejection. -/
def redirectUriNotAllowed : AuthorizationError :=
  { error := "invalid_request", error_description := some "redirect_uri is not allowed",
    error_uri := none, state := none }

/-- `validateRedirectUri` (refactored authorize route): same checks,
reported as an `AuthorizationError`. -/
def validateRedirectUri (redirectUri : String) : Option AuthorizationError :=
  match urlParse redirectUri with
  | none => some redirectUriNotAllowed
  | some url =>
    if dangerousSchemes.contains url.scheme then some redirectUriNotAllowed
    else if url.scheme = "http" ∧ ¬localhostHostnames.contains url.hostname then
      some redirectUriNotAllowed
    else if ¬allowedSchemes.contains url.scheme then some redirectUriNotAllowed
    else none

/-! ## Route responses and OAuth response utilities
(src/lib/oauth-response-utils.ts) -/

/-- A redirect target: the URI handed to `createOAuthRedirectResponse`
plus the query parameters set on it. The string serialization of the
final Location (including any query the URI itself carried) is beyond
what the claims consult and is not modelled. -/
structure UrlWithQuery where
  base : String
  query : List (String × String)
  deriving Repr, DecidableEq

/-- `URLSearchParams.set`: replace in place or append. -/
def urlSearchParamsSet (q : List (String × String)) (k v : String) :
    List (String × String) :=
  if q.any (fun p => p.1 = k) then
    q.map (fun p => if p.1 = k then (k, v) else p)
  else q ++ [(k, v)]

/-- Query lookup on a redirect target. -/
def getQueryParam (u : UrlWithQuery) (k : String) : Option String :=
  (u.query.find? (fun p => p.1 = k)).map (fun p => p.2)

/-- An HTTP response of the OAuth routes: a JSON error body or a 302
redirect. -/
inductive RouteResponse where
  | json (status : Nat) (error : String) (errorDescription : Option String)
      (state : Option String) : RouteResponse
  | redirect (location : UrlWithQuery) : RouteResponse
  deriving Repr, DecidableEq

/-- The HTTP status of a route response (a redirect is a 302). -/
def RouteResponse.statusOf : RouteResponse → Nat
  | .json status _ _ _ => status
  | .redirect _ => 302

/-- `createOAuthErrorResponse`: JSON error body, empty descriptions and
states dropped by the `&&` spreads. -/
def createOAuthErrorResponse (error : String) (description : Option String)
    (statusCode : Nat) (state : Option String) : RouteResponse :=
  .json statusCode error (if isTruthyStr description then description else none)
    (if isTruthyStr state then state else none)

/-- `createOAuthRedirectResponse`: 302 to the URI with the parameters
set; `none` models the `TypeError` thrown when the URI does not parse. -/
def createOAuthRedirectResponse (redirectUri : String)
    (params : List (String × String)) : Option RouteResponse :=
  if (urlParse redirectUri).isSome then
    some (RouteResponse.redirect
      ⟨redirectUri, params.foldl (fun q kv => urlSearchParamsSet q kv.1 kv.2) []⟩)
  else none

/-! ## Authorization relay (refactored authorize route) -/

structure AuthorizationRequest where
  response_type : String
  client_id : String
  redirect_uri : String
  scope : Option String
  state : Option String
  code_challenge : String
  code_challenge_method : String
  resource : Option String
  deriving Repr, DecidableEq

/-- `validateScope`: every nonempty `+`-or-space-delimited term must be
a supported scope. -/
def validateScope (scope : String) : Option AuthorizationError :=
  let normalizedScope :=
    String.mk (scope.data.map (fun c => if c.toNat = 43 then Char.ofNat 32 else c))
  let requestedScopes := jsSplitOn (Char.ofNat 32) normalizedScope
  let invalidScopes :=
    requestedScopes.filter (fun s => s ≠ "" ∧ ¬supportedScopes.contains s)
  if invalidScopes.length > 0 then
    some { error := "invalid_scope",
           error_description :=
             some ("Unsupported scope(s): " ++ String.intercalate ", " invalidScopes),
           error_uri := none, state := none }
  else none

/-- `validateResource`: must parse as a URI. -/
def validateResource (resource : String) : Option AuthorizationError :=
  if (urlParse resource).isSome then none
  else some { error := "invalid_request",
              error_description := some "resource parameter must be a valid URI",
              error_uri := none, state := none }

/-- `validateAuthorizationRequest`: the rule table in order
(response_type, client_id, redirect_uri, code_challenge,
code_challenge_method), then redirect-URI, scope and resource checks;
the first failure wins. -/
def validateAuthorizationRequest (r : AuthorizationRequest) :
    Option AuthorizationError :=
  if r.response_type = "" ∨ r.response_type ≠ "code" then
    some { error := "unsupported_response_type",
           error_description := some "Only authorization code flow is supported",
           error_uri := none, state := none }
  else if r.client_id = "" then
    some { error := "invalid_request",
           error_description := some "client_id parameter is required",
           error_uri := none, state := none }
  else if r.redirect_uri = "" then
    some { error := "invalid_request",
           error_description := some "redirect_uri parameter is required",
           error_uri := none, state := none }
  else if r.code_challenge = "" then
    some { error := "invalid_request",
           error_description := some "code_challenge parameter is required",
           error_uri := none, state := none }
  else if r.code_challenge_method = "" ∨ r.code_challenge_method ≠ "S256" then
    some { error := "invalid_request",
           error_description := some "code_challenge_method must be S256",
           error_uri := none, state := none }
  else
    match validateRedirectUri r.redirect_uri with
    | some e => some e
    | none =>
      match (if isTruthyStr r.scope then validateScope (r.scope.getD "") else none) with
      | some e => some e
      | none =>
          if isTruthyStr r.resource then validateResource (r.resource.getD "")
          else none

/-- The proxy's DocuSign configuration (src/lib/config.ts). -/
structure DocusignConfig where
  clientId : String
  redirectUri : String
  baseUrl : String
  deriving Repr, DecidableEq

/-- The authorization endpoint path from oauth-config. -/
def authorization_endpoint : String := "/oauth/auth"

/-- `buildDocuSignAuthUrl`: the upstream authorization URL with the
proxy's own client id and redirect URI, the encoded state, the
(possibly default) scope and the caller's PKCE parameters. -/
def buildDocuSignAuthUrl (cfg : DocusignConfig) (authRequest : AuthorizationRequest)
    (encodedState : String) : UrlWithQuery :=
  let q := urlSearchParamsSet [] "response_type" "code"
  let q := urlSearchParamsSet q "client_id" cfg.clientId
  let q := urlSearchParamsSet q "redirect_uri" cfg.redirectUri
  let q := urlSearchParamsSet q "state" encodedState
  let scope := orDefaultStr authRequest.scope default_scope
  let q := urlSearchParamsSet q "scope"
    (String.mk (scope.data.map (fun c => if c.toNat = 43 then Char.ofNat 32 else c)))
  let q := urlSearchParamsSet q "code_challenge" authRequest.code_challenge
  let q := urlSearchParamsSet q "code_challenge_method" authRequest.code_challenge_method
  { base := cfg.baseUrl ++ authorization_endpoint, query := q }

/-- `handleAuthorizationError`: redirect the error to a valid
redirect URI unless the error class forbids it, else a 400 body. -/
def handleAuthorizationError (err : AuthorizationError) (redirectUri : String) :
    Option RouteResponse :=
  if redirectUri ≠ "" ∧ validateRedirectUri redirectUri = none ∧
      ¬(err.error = "invalid_request" ∨ err.error = "unauthorized_client") then
    createOAuthRedirectResponse redirectUri
      ([("error", err.error)] ++
        (match err.error_description with
         | some d => if d ≠ "" then [("error_description", d)] else []
         | none => []) ++
        (match err.error_uri with
         | some u => if u ≠ "" then [("error_uri", u)] else []
         | none => []) ++
        (match err.state with
         | some s => if s ≠ "" then [("state", s)] else []
         | none => []))
  else some (createOAuthErrorResponse err.error err.error_description 400 err.state)

/-- The relay state built from a validated request at time `now`. -/
def mkMCPClientInfo (r : AuthorizationRequest) (now : Int) : MCPClientInfo :=
  { client_id := r.client_id, redirect_uri := r.redirect_uri,
    original_state := r.state, code_challenge := r.code_challenge,
    code_challenge_method := r.code_challenge_method, resource := r.resource,
    timestamp := now }

/-- `GET /authorize` (refactored route): validate, encode the state,
redirect to the upstream authorization URL; any thrown error becomes the
500 response of the catch-all. -/
def authorizeGET (cfg : DocusignConfig) (now : Int) (r : AuthorizationRequest) :
    RouteResponse :=
  let res : Option RouteResponse :=
    match validateAuthorizationRequest r with
    | some err => handleAuthorizationError err r.redirect_uri
    | none =>
      match encodeStateParameter (mkMCPClientInfo r now) with
      | none => none
      | some encodedState =>
        let url := buildDocuSignAuthUrl cfg r encodedState
        if (urlParse url.base).isSome then some (.redirect url) else none
  res.getD (createOAuthErrorResponse "server_error"
    (some "Internal server error processing authorization request") 500 none)

/-! ## Callback handler (refactored src/api/auth/callback.ts) -/

structure SecurityConfig where
  stateExpirationMs : Int
  deriving Repr, DecidableEq

/-- `validateStateTimestamp`: fresh while
`Date.now() - timestamp <= stateExpirationMs`. -/
def validateStateTimestamp (now : Int) (cfg : SecurityConfig)
    (mcpClientInfo : MCPClientInfo) : Bool :=
  decide (now - mcpClientInfo.timestamp ≤ cfg.stateExpirationMs)

/-- `handleDocuSignError`: with a decodable state, bounce the upstream
error back to the original client; otherwise a 400 error body. -/
def handleDocuSignError (error : String) (errorDescription : Option String)
    (state : Option String) : Option RouteResponse :=
  if ¬isTruthyStr state then
    some (createOAuthErrorResponse error
      (some (orDefaultStr errorDescription "Authorization failed")) 400 none)
  else
    match decodeStateParameter (state.getD "") with
    | none =>
        some (createOAuthErrorResponse error
          (some (orDefaultStr errorDescription "Authorization failed")) 400 none)
    | some mcpClientInfo =>
        createOAuthRedirectResponse mcpClientInfo.redirect_uri
          ([("error", error)] ++
            (if isTruthyStr errorDescription then
              [("error_description", errorDescription.getD "")] else []) ++
            (if isTruthyStr mcpClientInfo.original_state then
              [("state", mcpClientInfo.original_state.getD "")] else []))

/-- `buildSuccessRedirect`: code plus restored original state. -/
def buildSuccessRedirect (code : String) (mcpClientInfo : MCPClientInfo) :
    Option RouteResponse :=
  createOAuthRedirectResponse mcpClientInfo.redirect_uri
    ([("code", code)] ++
      (if isTruthyStr mcpClientInfo.original_state then
        [("state", mcpClientInfo.original_state.getD "")] else []))

/-- `GET /auth/callback` (refactored route): upstream error handling,
required-parameter check, state decoding, freshness check, success
redirect; any thrown error becomes the 500 response of the catch-all. -/
def callbackGET (now : Int) (cfg : SecurityConfig)
    (code state error errorDescription : Option String) : RouteResponse :=
  let res : Option RouteResponse :=
    if isTruthyStr error then
      handleDocuSignError (error.getD "") errorDescription state
    else if ¬(isTruthyStr code ∧ isTruthyStr state) then
      some (createOAuthErrorResponse "invalid_request"
        (some "Missing required parameters (code or state)") 400 none)
    else
      match decodeStateParameter (state.getD "") with
      | none =>
          some (createOAuthErrorResponse "invalid_request"
            (some "Invalid state parameter") 400 none)
      | some mcpClientInfo =>
          if ¬validateStateTimestamp now cfg mcpClientInfo then
            some (createOAuthErrorResponse "invalid_request"
              (some "State parameter has expired") 400 none)
          else buildSuccessRedirect (code.getD "") mcpClientInfo
  res.getD (createOAuthErrorResponse "server_error"
    (some "Internal server error processing callback") 500 none)

/-! ## Helper lemmas for the claim theorems -/

theorem find_map_set (o : JsonObj) (k : String) (v : Json)
    (h : o.any (fun p => p.1 = k) = true) :
    (o.map (fun p => if p.1 = k then (k, v) else p)).find?
      (fun p => p.1 = k) = some (k, v) := by
  induction o with
  | nil => simp at h
  | cons p t ih =>
    by_cases hp : p.1 = k
    · simp [hp]
    · simp only [List.any_cons, Bool.or_eq_true, decide_eq_true_eq] at h
      have ht : t.any (fun p => p.1 = k) = true := by
        rcases h with h | h
        · exact absurd h hp
        · simpa using h
      simp only [List.map_cons, if_neg hp]
      rw [List.find?_cons_of_neg _ (by simpa using hp)]
      exact ih ht

theorem find_no_match_append (o : JsonObj) (k : String) (v : Json)
    (h : o.any (fun p => p.1 = k) = false) :
    (o ++ [(k, v)]).find? (fun p => p.1 = k) = some (k, v) := by
  induction o with
  | nil => simp
  | cons p t ih =>
    simp only [List.any_cons, Bool.or_eq_false_iff, decide_eq_false_iff_not] at h
    simp only [List.cons_append]
    rw [List.find?_cons_of_neg _ (by simpa using h.1)]
    exact ih (by simpa [decide_eq_false_iff_not] using h.2)

theorem objGet_objSet_self (o : JsonObj) (k : String) (v : Json) :
    objGet (objSet o k v) k = some v := by
  unfold objGet objSet
  by_cases h : o.any (fun p => p.1 = k) = true
  · rw [if_pos h, find_map_set o k v h]
    rfl
  · rw [if_neg h,
      find_no_match_append o k v (by simp only [Bool.not_eq_true] at h; exact h)]
    rfl

theorem normalizeTokenScope_scope (body : JsonObj)
    (h : jsTruthy ((objGet body "access_token").getD .null) = true) :
    objGet (normalizeTokenScope body) "scope" = some (.str default_scope) := by
  unfold normalizeTokenScope
  rw [if_pos h]
  exact objGet_objSet_self body "scope" (.str default_scope)

theorem normalizeTokenScope_id (body : JsonObj)
    (h : jsTruthy ((objGet body "access_token").getD .null) = false) :
    normalizeTokenScope body = body := by
  unfold normalizeTokenScope
  rw [if_neg (by simp [h])]

/-! ## The claims -/

/-- C1: on a supported grant, both `POST /token` variants overwrite the
`scope` of any upstream body with a truthy `access_token` with the fixed
canonical `default_scope`, and return bodies without an `access_token`
untouched. -/
theorem claim_C1 (grantType : Option String) (status : Nat) (body : JsonObj)
    (hg : grantType = some "authorization_code" ∨ grantType = some "refresh_token") :
    (jsTruthy ((objGet body "access_token").getD .null) = true →
      objGet (tokenPOSTOriginal grantType status body).body "scope" =
          some (.str default_scope) ∧
      objGet (tokenPOSTRefactored grantType status body).body "scope" =
          some (.str default_scope)) ∧
    (jsTruthy ((objGet body "access_token").getD .null) = false →
      (tokenPOSTOriginal grantType status body).body = body ∧
      (tokenPOSTRefactored grantType status body).body = body) := by
  have ho : (tokenPOSTOriginal grantType status body).body =
      normalizeTokenScope body := by
    unfold tokenPOSTOriginal
    rw [if_pos hg]
  have hr : (tokenPOSTRefactored grantType status body).body =
      normalizeTokenScope body := by
    rcases hg with hg | hg <;> subst hg <;> rfl
  constructor
  · intro h
    rw [ho, hr]
    exact ⟨normalizeTokenScope_scope body h, normalizeTokenScope_scope body h⟩
  · intro h
    rw [ho, hr, normalizeTokenScope_id body h]
    exact ⟨rfl, rfl⟩

def c1Body : JsonObj := [("access_token", .str "tok"), ("scope", .str "upstream-scope")]

theorem claim_C1_witness :
    objGet (tokenPOSTOriginal (some "authorization_code") 200 c1Body).body "scope" =
        some (.str default_scope) ∧
    objGet (tokenPOSTRefactored (some "authorization_code") 200 c1Body).body "scope" =
        some (.str default_scope) :=
  (claim_C1 (some "authorization_code") 200 c1Body (Or.inl rfl)).1 (by decide)

/-- C2: the original `POST /token` variant republishes the upstream HTTP
status, but the refactored variant always answers 200 through
`createTokenResponse` — in particular an upstream 400 invalid_grant is
masked as a 200. -/
theorem claim_C2 :
    (∀ (status : Nat) (body : JsonObj),
      (tokenPOSTOriginal (some "authorization_code") status body).status = status) ∧
    (∀ (status : Nat) (body : JsonObj),
      (tokenPOSTRefactored (some "authorization_code") status body).status = 200) ∧
    (tokenPOSTRefactored (some "authorization_code") 400
        [("error", Json.str "invalid_grant")]).status = 200 := by
  refine ⟨fun status body => ?_, fun status body => rfl, rfl⟩
  unfold tokenPOSTOriginal
  rw [if_pos (Or.inl rfl)]

/-- C3: the state codec round-trips — `decode(encode(s)) = s` — for every
state whose string fields are latin-1; `btoa` throws (`encode` yields
`none`) as soon as any field holds a character above U+00FF, so the
round-trip cannot hold for those states. -/
theorem claim_C3 (info : MCPClientInfo) (h : mcpLatin1 info) :
    (encodeStateParameter info).bind decodeStateParameter = some info :=
  decodeState_encodeState info h

def c3Info : MCPClientInfo :=
  { client_id := "mcp-client", redirect_uri := "https://example.com/cb",
    original_state := some "xyz", code_challenge := "abc123",
    code_challenge_method := "S256", resource := some "https://api.example.com",
    timestamp := 1700000000000 }

theorem claim_C3_witness :
    (encodeStateParameter c3Info).bind decodeStateParameter = some c3Info :=
  claim_C3 c3Info (by
    refine ⟨?_, ?_, ?_, ?_, ?_, ?_⟩ <;>
      first
        | (unfold allLatin1; decide)
        | (rintro s rfl; unfold allLatin1; decide))

def c3BadInfo : MCPClientInfo :=
  { client_id := "Āclient", redirect_uri := "https://example.com/cb",
    original_state := none, code_challenge := "abc",
    code_challenge_method := "S256", resource := none, timestamp := 0 }

theorem claim_C3_counterexample :
    encodeStateParameter c3BadInfo = none ∧
    (encodeStateParameter c3BadInfo).bind decodeStateParameter ≠ some c3BadInfo := by
  exact ⟨by decide, by decide⟩

/-- C4: on the success path (no upstream error, code and state present),
a decodable state older than the freshness window is rejected with a 400
invalid_request response saying the state parameter has expired, and no
redirect is issued. -/
theorem claim_C4 (now : Int) (cfg : SecurityConfig) (c s : String)
    (info : MCPClientInfo) (hc : c ≠ "") (hs : s ≠ "")
    (hdec : decodeStateParameter s = some info)
    (hexp : cfg.stateExpirationMs < now - info.timestamp) :
    callbackGET now cfg (some c) (some s) none none =
      .json 400 "invalid_request" (some "State parameter has expired") none := by
  unfold callbackGET
  rw [show isTruthyStr (none : Option String) = false from rfl]
  rw [if_neg (by simp)]
  rw [show isTruthyStr (some c) = true from by simp [isTruthyStr, hc],
      show isTruthyStr (some s) = true from by simp [isTruthyStr, hs]]
  rw [if_neg (by simp)]
  rw [show (some s).getD "" = s from rfl, hdec]
  dsimp only
  rw [show validateStateTimestamp now cfg info = false from by
        simp only [validateStateTimestamp, decide_eq_false_iff_not, not_le]
        exact hexp]
  rw [if_pos (by simp)]
  rfl

def c4Info : MCPClientInfo :=
  { client_id := "mcp-client", redirect_uri := "https://example.com/cb",
    original_state := none, code_challenge := "abc",
    code_challenge_method := "S256", resource := none, timestamp := 0 }

def c4State : String := (encodeStateParameter c4Info).getD ""

theorem claim_C4_witness :
    callbackGET 700000 ⟨600000⟩ (some "authcode") (some c4State) none none =
      .json 400 "invalid_request" (some "State parameter has expired") none := by
  have hlat : mcpLatin1 c4Info := by
    refine ⟨?_, ?_, ?_, ?_, ?_, ?_⟩ <;>
      first
        | (unfold allLatin1; decide)
        | (intro s hs; cases hs)
  have hrt := decodeState_encodeState c4Info hlat
  have hsome : (encodeStateParameter c4Info).isSome = true := by decide
  obtain ⟨enc, henc⟩ := Option.isSome_iff_exists.mp hsome
  rw [henc] at hrt
  have hdec : decodeStateParameter c4State = some c4Info := by
    unfold c4State
    rw [henc]
    exact hrt
  exact claim_C4 700000 ⟨600000⟩ "authcode" c4State c4Info (by decide) (by decide)
    hdec (by decide)

/-- The redirect-URI policy as the specification words it: scheme in the
allow-list, not in the deny-list, and `http` only for localhost hosts. -/
def specRedirectUriAllowed (u : ParsedUrl) : Prop :=
  u.scheme ∈ allowedSchemes ∧ u.scheme ∉ dangerousSchemes ∧
    (u.scheme = "http" → u.hostname ∈ localhostHostnames)

theorem isValid_iff_spec (s : String) :
    isValidRedirectUri s = true ↔
      ∃ u, urlParse s = some u ∧ specRedirectUriAllowed u := by
  unfold isValidRedirectUri specRedirectUriAllowed
  cases hu : urlParse s with
  | none => simp
  | some u =>
    by_cases hd : dangerousSchemes.contains u.scheme = true <;>
      by_cases hh : u.scheme = "http" ∧ ¬localhostHostnames.contains u.hostname = true <;>
        by_cases ha : allowedSchemes.contains u.scheme = true <;>
          simp_all [imp_iff_not_or]

theorem validate_iff_isValid (s : String) :
    validateRedirectUri s = none ↔ isValidRedirectUri s = true := by
  unfold validateRedirectUri isValidRedirectUri
  cases urlParse s with
  | none => simp
  | some u =>
    by_cases hd : dangerousSchemes.contains u.scheme = true <;>
      by_cases hh : u.scheme = "http" ∧ ¬localhostHostnames.contains u.hostname = true <;>
        by_cases ha : allowedSchemes.contains u.scheme = true <;>
          simp_all [imp_iff_not_or]

/-- C5: both redirect-URI validators accept exactly the URIs whose
scheme is allow-listed, not deny-listed, and — for `http` — whose host
is a localhost host; concretely `javascript://x` and
`http://example.com/cb` are rejected while `http://localhost:3000/cb`
and `https://example.com/cb` are accepted. -/
theorem claim_C5 :
    (∀ s, isValidRedirectUri s = true ↔
        ∃ u, urlParse s = some u ∧ specRedirectUriAllowed u) ∧
    (∀ s, validateRedirectUri s = none ↔ isValidRedirectUri s = true) ∧
    isValidRedirectUri "javascript://x" = false ∧
    isValidRedirectUri "http://localhost:3000/cb" = true ∧
    isValidRedirectUri "http://example.com/cb" = false ∧
    isValidRedirectUri "https://example.com/cb" = true :=
  ⟨isValid_iff_spec, validate_iff_isValid, by decide, by decide, by decide, by decide⟩

theorem buildDocuSignAuthUrl_query (cfg : DocusignConfig) (r : AuthorizationRequest)
    (s : String) :
    (buildDocuSignAuthUrl cfg r s).query =
      [("response_type", "code"), ("client_id", cfg.clientId),
       ("redirect_uri", cfg.redirectUri), ("state", s),
       ("scope", String.mk ((orDefaultStr r.scope default_scope).data.map
          (fun c => if c.toNat = 43 then Char.ofNat 32 else c))),
       ("code_challenge", r.code_challenge),
       ("code_challenge_method", r.code_challenge_method)] := rfl

/-- C6: an authorization request that passes validation and whose relay
state encodes successfully is answered with a 302 redirect whose query
carries the caller's own `code_challenge` and `code_challenge_method`. -/
theorem claim_C6 (cfg : DocusignConfig) (now : Int) (r : AuthorizationRequest)
    (hv : validateAuthorizationRequest r = none)
    (henc : (encodeStateParameter (mkMCPClientInfo r now)).isSome = true)
    (hbase : (urlParse (cfg.baseUrl ++ authorization_endpoint)).isSome = true) :
    ∃ u, authorizeGET cfg now r = .redirect u ∧
      getQueryParam u "code_challenge" = some r.code_challenge ∧
      getQueryParam u "code_challenge_method" = some r.code_challenge_method ∧
      (authorizeGET cfg now r).statusOf = 302 := by
  obtain ⟨enc, henc2⟩ := Option.isSome_iff_exists.mp henc
  refine ⟨buildDocuSignAuthUrl cfg r enc, ?_⟩
  have hroute : authorizeGET cfg now r = .redirect (buildDocuSignAuthUrl cfg r enc) := by
    unfold authorizeGET
    rw [hv]
    dsimp only
    rw [henc2]
    dsimp only
    rw [if_pos (show (urlParse (buildDocuSignAuthUrl cfg r enc).base).isSome = true
      from hbase)]
    rfl
  refine ⟨hroute, ?_, ?_, by rw [hroute]; rfl⟩
  · unfold getQueryParam
    rw [buildDocuSignAuthUrl_query]
    rfl
  · unfold getQueryParam
    rw [buildDocuSignAuthUrl_query]
    rfl

def c6Cfg : DocusignConfig :=
  { clientId := "proxy-client", redirectUri := "https://proxy.example.com/api/auth/callback",
    baseUrl := "https://account-d.docusign.com" }

def c6Req : AuthorizationRequest :=
  { response_type := "code", client_id := "mcp-client",
    redirect_uri := "https://example.com/cb", scope := none, state := none,
    code_challenge := "abc123", code_challenge_method := "S256", resource := none }

theorem claim_C6_witness :
    ∃ u, authorizeGET c6Cfg 0 c6Req = .redirect u ∧
      getQueryParam u "code_challenge" = some c6Req.code_challenge ∧
      getQueryParam u "code_challenge_method" = some c6Req.code_challenge_method ∧
      (authorizeGET c6Cfg 0 c6Req).statusOf = 302 :=
  claim_C6 c6Cfg 0 c6Req (by decide) (by decide) (by decide)

def c6BadReq : AuthorizationRequest :=
  { response_type := "code", client_id := "Āclient",
    redirect_uri := "https://example.com/cb", scope := none, state := none,
    code_challenge := "abc123", code_challenge_method := "S256", resource := none }

theorem claim_C6_counterexample :
    validateAuthorizationRequest c6BadReq = none ∧
    authorizeGET c6Cfg 0 c6BadReq =
      .json 500 "server_error"
        (some "Internal server error processing authorization request") none := by
  exact ⟨by decide, by decide⟩

def fixtureMSA : Agreement :=
  { id := "ag-1", title := some "Master Service Agreement", type := some "MSA",
    category := some "Procurement", status := some "complete",
    file_name := some "msa.pdf", summary := some "Services terms.",
    parties := [] }

def fixtureNDA : Agreement :=
  { id := "ag-2", title := some "Mutual NDA", type := some "NDA",
    category := some "Legal", status := some "complete",
    file_name := some "mutual-nda.pdf", summary := some "Confidentiality terms.",
    parties := [] }

def fixtureEmp : Agreement :=
  { id := "ag-3", title := some "Employment Contract", type := some "Contract",
    category := some "HR", status := some "complete",
    file_name := some "employment.pdf", summary := some "Hiring terms.",
    parties := [] }

set_option maxRecDepth 20000

/-- C7: the search filter keeps an agreement exactly when at least one
whitespace-split lower-cased query term occurs as a substring of its
lower-cased searchable text (OR semantics), and searching "NDA" against
the three-agreement fixture set returns exactly the one agreement whose
title contains "NDA". -/
theorem claim_C7 :
    (∀ (query : String) (agreements : List Agreement) (a : Agreement),
        a ∈ searchFilterAgreements query agreements ↔
          a ∈ agreements ∧
            ∃ term ∈ searchTermsOf query,
              strIncludes (searchableText a) term = true) ∧
    (searchFilterAgreements "NDA" [fixtureMSA, fixtureNDA, fixtureEmp]).map
        Agreement.id = ["ag-2"] := by
  constructor
  · intro query agreements a
    simp [searchFilterAgreements, List.mem_filter, List.any_eq_true]
  · decide

/-- C8: when an agreement has a nonempty summary, the formatter's
snippet is the summary itself when it is at most 200 characters, and
otherwise its 200-character prefix followed by "...", for 203 characters
in total — so the snippet is bounded by 203 characters, not 200. -/
theorem claim_C8 (a : Agreement) (s : String) (hsum : a.summary = some s)
    (hne : s ≠ "") :
    (snippetOf a).length ≤ 203 ∧
    (s.length ≤ 200 → snippetOf a = s) ∧
    (200 < s.length →
      snippetOf a = String.mk (s.data.take 200) ++ "..." ∧
      (snippetOf a).length = 203) := by
  have hsn : snippetOf a =
      if s.length > 200 then String.mk (s.data.take 200) ++ "..." else s := by
    unfold snippetOf
    rw [hsum]
    dsimp only
    rw [if_pos hne]
  by_cases hl : 200 < s.length
  · have hlen : (String.mk (s.data.take 200) ++ "...").length = 203 := by
      rw [String.length_append]
      have h200 : (String.mk (s.data.take 200)).length = 200 := by
        show (s.data.take 200).length = 200
        rw [List.length_take]
        have hdl : 200 < s.data.length := hl
        omega
      rw [h200]
      rfl
    rw [hsn, if_pos hl]
    exact ⟨by omega, fun h => absurd hl (by omega), fun _ => ⟨rfl, hlen⟩⟩
  · rw [hsn, if_neg hl]
    exact ⟨by omega, fun _ => rfl, fun h => absurd h hl⟩

def c8LongSummary : String := String.mk (List.replicate 201 (Char.ofNat 97))

def c8Agreement : Agreement :=
  { id := "ag-long", title := some "Big Agreement", type := none, category := none,
    status := none, file_name := none, summary := some c8LongSummary, parties := [] }

theorem claim_C8_witness :
    (snippetOf c8Agreement).length ≤ 203 ∧
    snippetOf c8Agreement = String.mk (c8LongSummary.data.take 200) ++ "..." ∧
    (snippetOf c8Agreement).length = 203 := by
  have h := claim_C8 c8Agreement c8LongSummary rfl (by decide)
  exact ⟨h.1, (h.2.2 (by decide)).1, (h.2.2 (by decide)).2⟩

def c8FallbackAgreement : Agreement :=
  { id := "ag-fallback", title := none,
    type := some (String.mk (List.replicate 300 (Char.ofNat 98))),
    category := none, status := none, file_name := none, summary := none,
    parties := [] }

theorem claim_C8_counterexample :
    200 < (snippetOf c8Agreement).length ∧
    200 < (snippetOf c8FallbackAgreement).length := by
  exact ⟨by decide, by decide⟩

/-- C9: a query whose split on the space character contains the empty
string — as with leading, trailing or consecutive spaces — keeps every
agreement, because the empty term is a substring of every searchable
text. -/
theorem claim_C9 (query : String) (agreements : List Agreement)
    (h : "" ∈ searchTermsOf query) :
    searchFilterAgreements query agreements = agreements := by
  unfold searchFilterAgreements
  rw [List.filter_eq_self]
  intro a _
  rw [List.any_eq_true]
  refine ⟨"", h, ?_⟩
  unfold strIncludes
  exact decide_eq_true List.nil_infix

theorem claim_C9_witness :
    searchFilterAgreements " nda" [fixtureMSA, fixtureNDA, fixtureEmp] =
      [fixtureMSA, fixtureNDA, fixtureEmp] :=
  claim_C9 " nda" [fixtureMSA, fixtureNDA, fixtureEmp] (by decide)

/-- C10: with an upstream error parameter and a decodable state, the
callback redirects the error to the decoded redirect_uri for every clock
value and every freshness window — the timestamp check is applied only
on the success path, so an arbitrarily old state is still honored. -/
theorem claim_C10 (e : String) (he : e ≠ "") (ed : Option String) (s : String)
    (hs : s ≠ "") (info : MCPClientInfo)
    (hdec : decodeStateParameter s = some info)
    (hurl : (urlParse info.redirect_uri).isSome = true) :
    ∃ q, (∀ (now : Int) (cfg : SecurityConfig) (code : Option String),
        callbackGET now cfg code (some s) (some e) ed =
          .redirect ⟨info.redirect_uri, q⟩) ∧
      getQueryParam ⟨info.redirect_uri, q⟩ "error" = some e := by
  refine ⟨([("error", e)] ++
      (if isTruthyStr ed then [("error_description", ed.getD "")] else []) ++
      (if isTruthyStr info.original_state then
        [("state", info.original_state.getD "")] else [])).foldl
      (fun q kv => urlSearchParamsSet q kv.1 kv.2) [], ?_, ?_⟩
  · intro now cfg code
    unfold callbackGET
    rw [show isTruthyStr (some e) = true from by simp [isTruthyStr, he]]
    rw [if_pos rfl]
    rw [show (some e).getD "" = e from rfl]
    unfold handleDocuSignError
    rw [show isTruthyStr (some s) = true from by simp [isTruthyStr, hs]]
    rw [if_neg (by simp)]
    rw [show (some s).getD "" = s from rfl, hdec]
    dsimp only
    unfold createOAuthRedirectResponse
    rw [if_pos hurl]
    rfl
  · by_cases hed : isTruthyStr ed = true <;>
      by_cases hos : isTruthyStr info.original_state = true <;>
        simp only [hed, hos, if_pos, if_neg, if_true, if_false,
          Bool.not_eq_true] <;>
      rfl

def c10Info : MCPClientInfo :=
  { client_id := "mcp-client", redirect_uri := "https://example.com/cb",
    original_state := some "orig123", code_challenge := "abc",
    code_challenge_method := "S256", resource := none,
    timestamp := 0 }

def c10State : String := (encodeStateParameter c10Info).getD ""

theorem claim_C10_witness :
    ∃ q, (callbackGET 1900000000000 ⟨600000⟩ none (some c10State)
          (some "access_denied") (some "User denied consent") =
            .redirect ⟨"https://example.com/cb", q⟩) ∧
      (callbackGET 0 ⟨0⟩ none (some c10State)
          (some "access_denied") (some "User denied consent") =
            .redirect ⟨"https://example.com/cb", q⟩) ∧
      getQueryParam ⟨"https://example.com/cb", q⟩ "error" = some "access_denied" := by
  have hlat : mcpLatin1 c10Info := by
    refine ⟨?_, ?_, ?_, ?_, ?_, ?_⟩ <;>
      first
        | (unfold allLatin1; decide)
        | (rintro s rfl; unfold allLatin1; decide)
        | (intro s hs; cases hs)
  have hrt := decodeState_encodeState c10Info hlat
  have hsome : (encodeStateParameter c10Info).isSome = true := by decide
  obtain ⟨enc, henc⟩ := Option.isSome_iff_exists.mp hsome
  rw [henc] at hrt
  have hdec : decodeStateParameter c10State = some c10Info := by
    unfold c10State
    rw [henc]
    exact hrt
  obtain ⟨q, hq, hqp⟩ := claim_C10 "access_denied" (by decide)
    (some "User denied consent") c10State (by decide) c10Info hdec (by decide)
  exact ⟨q, hq 1900000000000 ⟨600000⟩ none, hq 0 ⟨0⟩ none, hqp⟩
